import Mathlib

/-!
File storage lifecycle of the drive clone

A shallow embedding of `src/server/models/File.js` and `src/server/routes/files.js`.

* The `File` collection is a list of documents in natural (insertion) order.
* The uploads directory is a list of `(path, bytes)` pairs.
* Every handler is a function from the request, the store and the environment of that
  request (clock, generated identifiers, outcome of each mutating store call) to the store
  afterwards, the HTTP response and the lines written with `console.error`.
* The four mutating store calls (multer's blob write, `fs.unlink`, `save`,
  `findByIdAndDelete`) can fail; the reads (`findOne`, `find`, `countDocuments`,
  `fs.pathExists`) are functions of the store.
* A rejected `save` or `findByIdAndDelete` ends in the `catch` of its handler (status 500).
  A statement about what a transition does when it is served says so with a hypothesis
  `saveOk = true` or `deleteOk = true`; a rejected `fs.unlink` is caught on the spot and the
  handler goes on, so it is part of every statement about permanent delete and upload.
-/

namespace DriveClone

/-! ## Data model (`models/File.js`) -/

/-- A document of the `File` collection: the fields of `fileSchema` and MongoDB's `_id`. -/
structure FileRecord where
  _id : Nat
  filename : String
  originalName : String
  mimetype : String
  size : Nat
  path : String
  uploadedBy : Nat
  uploadedAt : Nat
  deleted : Bool
  deletedAt : Option Nat
  deriving DecidableEq, Repr

/-- The uploads directory: the bytes stored under each path. -/
abbrev Disk := List (String × List Nat)

/-- The two stores the routes work on. -/
structure Store where
  files : List FileRecord
  disk : Disk
  deriving DecidableEq, Repr

/-- What one request gets from outside the stores: the clock (`new Date()`, `Date.now`),
the identifiers generated for it (`uuidv4()`, the ObjectId of `new File`) and whether each
mutating store call it makes goes through. -/
structure Env where
  now : Nat
  uuid : String
  objectId : Nat
  writeOk : Bool
  saveOk : Bool
  unlinkOk : Bool
  deleteOk : Bool
  deriving DecidableEq, Repr

/-! ## Responses -/

/-- The `file` object of the upload response. -/
structure UploadSummary where
  id : Nat
  filename : String
  originalName : String
  mimetype : String
  size : Nat
  uploadedAt : Nat
  deriving DecidableEq, Repr

/-- The projection `select('-_id filename originalName mimetype size uploadedAt')`. -/
structure FileInfo where
  filename : String
  originalName : String
  mimetype : String
  size : Nat
  uploadedAt : Nat
  deriving DecidableEq, Repr

/-- The projection
`select('-_id filename originalName mimetype size uploadedAt deleted deletedAt')`. -/
structure FileEntry where
  filename : String
  originalName : String
  mimetype : String
  size : Nat
  uploadedAt : Nat
  deleted : Bool
  deletedAt : Option Nat
  deriving DecidableEq, Repr

/-- The `pagination` object of the list response; `totalPages` is `none` where
`Math.ceil(total / limit)` is not a finite number (JSON `null`). -/
structure Pagination where
  currentPage : Int
  totalPages : Option Int
  totalFiles : Nat
  hasNextPage : Bool
  hasPrevPage : Bool
  deriving DecidableEq, Repr

/-- The body of a response. -/
inductive Body where
  | error (msg : String)
  | message (msg : String)
  | uploaded (msg : String) (file : UploadSummary)
  | file (info : FileInfo)
  | files (files : List FileEntry) (pagination : Pagination)
  | download (filePath : String) (name : String)
  | unhandled
  deriving DecidableEq, Repr

/-- An HTTP response: status code and body. -/
structure Response where
  status : Nat
  body : Body
  deriving DecidableEq, Repr

/-- What a handler leaves behind: the stores, the response, the `console.error` lines. -/
structure Result where
  store : Store
  response : Response
  log : List String
  deriving DecidableEq, Repr

/-! ## Store calls -/

/-- The directory `uploadsDir` of `routes/files.js`. -/
def uploadsDir : String := "uploads"

/-- Joins a directory and a file name, as `path.join` does for a plain file name. -/
def pathJoin (dir name : String) : String := dir ++ "/" ++ name

/-- Whether a blob is stored under the path (`fs.pathExists`). -/
def pathExists (d : Disk) (p : String) : Bool := d.any (fun b => b.1 == p)

/-- Writes a blob under the path, replacing what was there. -/
def writeFile (d : Disk) (p : String) (bytes : List Nat) : Disk :=
  (p, bytes) :: d.filter (fun b => b.1 != p)

/-- Removes the blob under the path (`fs.unlink`); `none` is a rejected promise: the call
failed in the storage layer, or nothing was stored under the path. -/
def unlink (ok : Bool) (d : Disk) (p : String) : Option Disk :=
  if ok && pathExists d p then some (d.filter (fun b => b.1 != p)) else none

/-- The first document that matches the query (`File.findOne`). -/
def findOne (q : FileRecord → Bool) (files : List FileRecord) : Option FileRecord :=
  files.find? q

/-- Applies the modified paths to the first document with the given `_id`. -/
def updateById (id : Nat) (g : FileRecord → FileRecord) : List FileRecord → List FileRecord
  | [] => []
  | f :: fs => if f._id = id then g f :: fs else f :: updateById id g fs

/-- Saves the modified paths of a loaded document (`file.save()`); `none` is a rejected
promise. -/
def saveExisting (ok : Bool) (files : List FileRecord) (id : Nat)
    (g : FileRecord → FileRecord) : Option (List FileRecord) :=
  if ok then some (updateById id g files) else none

/-- Saves a new document (`file.save()`): inserted after the others; `none` is a rejected
promise: the call failed, or the `_id` is already in the collection. -/
def saveNew (ok : Bool) (files : List FileRecord) (doc : FileRecord) :
    Option (List FileRecord) :=
  if ok && !files.any (fun f => f._id == doc._id) then some (files ++ [doc]) else none

/-- Removes the first document with the given `_id`. -/
def removeById (id : Nat) : List FileRecord → List FileRecord
  | [] => []
  | f :: fs => if f._id = id then fs else f :: removeById id fs

/-- Deletes by `_id` (`File.findByIdAndDelete`); `none` is a rejected promise. -/
def findByIdAndDelete (ok : Bool) (files : List FileRecord) (id : Nat) :
    Option (List FileRecord) :=
  if ok then some (removeById id files) else none

/-! ## Upload -/

/-- The `file` part of a multipart upload request. -/
structure Payload where
  originalname : String
  mimetype : String
  bytes : List Nat
  deriving DecidableEq, Repr

/-- The object multer leaves in `req.file`. -/
structure ReqFile where
  originalname : String
  mimetype : String
  size : Nat
  filename : String
  path : String
  deriving DecidableEq, Repr

/-- The `limits.fileSize` of the multer configuration. -/
def fileSizeLimit : Nat := 100 * 1024 * 1024

/-- The `filename` callback of `multer.diskStorage`. -/
def uniqueName (uuid originalname : String) : String := uuid ++ "-" ++ originalname

/-- The object multer's disk storage builds for a stored payload: the name from the
`filename` callback, the path under the `destination` directory. -/
def storedFile (env : Env) (p : Payload) : ReqFile :=
  { originalname := p.originalname, mimetype := p.mimetype, size := p.bytes.length,
    filename := uniqueName env.uuid p.originalname,
    path := pathJoin uploadsDir (uniqueName env.uuid p.originalname) }

/-- The middleware `upload.single('file')` with the disk storage configured in
`routes/files.js`: `none` when it passes an error on (payload over the size limit, or the
blob write failed) and the route handler is not run; otherwise the disk afterwards and
`req.file`. -/
def uploadSingle (env : Env) (d : Disk) : Option Payload → Option (Disk × Option ReqFile)
  | none => some (d, none)
  | some p =>
    if p.bytes.length > fileSizeLimit then none
    else if env.writeOk then
      some (writeFile d (storedFile env p).path p.bytes, some (storedFile env p))
    else none

/-- The document `new File(...)` of the upload handler, with the schema defaults. -/
def newFile (env : Env) (user : Nat) (rf : ReqFile) : FileRecord :=
  { _id := env.objectId, filename := rf.filename, originalName := rf.originalname,
    mimetype := rf.mimetype, size := rf.size, path := rf.path, uploadedBy := user,
    uploadedAt := env.now, deleted := false, deletedAt := none }

/-- The handler of `POST /upload`, run after multer. -/
def uploadHandler (env : Env) (s : Store) (user : Nat) : Option ReqFile → Result
  | none => ⟨s, ⟨400, .error "No file uploaded"⟩, []⟩
  | some rf =>
    let file := newFile env user rf
    match saveNew env.saveOk s.files file with
    | some files =>
      ⟨{ s with files := files },
       ⟨201, .uploaded "File uploaded successfully"
          { id := file._id, filename := file.filename, originalName := file.originalName,
            mimetype := file.mimetype, size := file.size, uploadedAt := file.uploadedAt }⟩,
       []⟩
    | none =>
      match unlink env.unlinkOk s.disk rf.path with
      | some d =>
        ⟨{ s with disk := d }, ⟨500, .error "Server error during file upload"⟩,
         ["Upload error:"]⟩
      | none =>
        ⟨s, ⟨500, .error "Server error during file upload"⟩,
         ["Upload error:", "Error deleting uploaded file:"]⟩

/-- The route `POST /upload`: multer, then the handler. An error passed on by multer ends in
the default error handler of Express (status 500), which is not code of the routes. -/
def upload (env : Env) (s : Store) (user : Nat) (payload : Option Payload) : Result :=
  match uploadSingle env s.disk payload with
  | none => ⟨s, ⟨500, .unhandled⟩, []⟩
  | some (d, rf) => uploadHandler env { s with disk := d } user rf

/-! ## Listing -/

/-- The query string of `GET /`; an absent parameter takes its default. A numeric parameter
is the integer its decimal string denotes, taken as an exact integer (the values for which
the arithmetic of the handler on JavaScript numbers is exact). -/
structure ListQuery where
  page : Option Int
  limit : Option Int
  search : Option String
  trash : Option String
  deriving DecidableEq, Repr

/-- The filter built by the list handler; `rx pattern subject` is the case-insensitive
regular-expression test of the database (`$regex` with `$options: 'i'`). -/
def listFilter (rx : String → String → Bool) (user : Nat) (trash search : String)
    (f : FileRecord) : Bool :=
  f.uploadedBy == user
    && (if trash = "true" then f.deleted == true else f.deleted != true)
    && (if search ≠ "" then rx search f.originalName else true)

/-- The projection of the list query. -/
def toEntry (f : FileRecord) : FileEntry :=
  { filename := f.filename, originalName := f.originalName, mimetype := f.mimetype,
    size := f.size, uploadedAt := f.uploadedAt, deleted := f.deleted,
    deletedAt := f.deletedAt }

/-- The cursor modifier `.limit(n)`: zero is no limit, a negative number counts as its
absolute value. -/
def applyLimit (n : Int) (l : List FileRecord) : List FileRecord :=
  if n = 0 then l else l.take n.natAbs

/-- The value `Math.ceil(total / limit)`, `none` when the quotient is not finite. -/
def ceilDiv (total : Nat) (limit : Int) : Option Int :=
  if limit = 0 then none
  else if 0 < limit then some (((total : Int) + limit - 1) / limit)
  else some (-((total : Int) / (-limit)))

/-- The handler of `GET /`, with `page` and `limit` as exact integers (`listJs` below has
them as JavaScript numbers). The documents are sorted by `uploadedAt` descending (documents
with equal `uploadedAt` stay in natural order), skipped, then limited; a negative skip is
refused by the database. -/
def list (rx : String → String → Bool) (s : Store) (user : Nat) (q : ListQuery) : Result :=
  let page := q.page.getD 1
  let limit := q.limit.getD 20
  let search := q.search.getD ""
  let trash := q.trash.getD "false"
  let skip := (page - 1) * limit
  let matching := s.files.filter (listFilter rx user trash search)
  if skip < 0 then
    ⟨s, ⟨500, .error "Server error while fetching files"⟩, ["Get files error:"]⟩
  else
    let sorted := matching.insertionSort (fun a b => a.uploadedAt ≥ b.uploadedAt)
    let files := applyLimit limit (sorted.drop skip.natAbs)
    let total := matching.length
    ⟨s, ⟨200, .files (files.map toEntry)
      { currentPage := page, totalPages := ceilDiv total limit, totalFiles := total,
        hasNextPage := decide (page * limit < (total : Int)),
        hasPrevPage := decide (page > 1) }⟩, []⟩

/-! ## Download, lifecycle transitions, info -/

/-- The handler of `GET /download/:filename`. -/
def download (s : Store) (user : Nat) (filename : String) : Result :=
  match findOne (fun f => f.filename == filename && f.uploadedBy == user) s.files with
  | none => ⟨s, ⟨404, .error "File not found"⟩, []⟩
  | some file =>
    let filePath := pathJoin uploadsDir file.filename
    if !pathExists s.disk filePath then
      ⟨s, ⟨404, .error "File not found on disk"⟩, []⟩
    else
      ⟨s, ⟨200, .download filePath file.originalName⟩, []⟩

/-- The assignments `file.deleted = true; file.deletedAt = new Date()`. -/
def markDeleted (now : Nat) (f : FileRecord) : FileRecord :=
  { f with deleted := true, deletedAt := some now }

/-- The assignments `file.deleted = false; file.deletedAt = null`. -/
def unmarkDeleted (f : FileRecord) : FileRecord :=
  { f with deleted := false, deletedAt := none }

/-- The handler of `DELETE /delete/:filename` (move to trash). -/
def moveToTrash (env : Env) (s : Store) (user : Nat) (filename : String) : Result :=
  match findOne
      (fun f => f.filename == filename && f.uploadedBy == user && f.deleted != true)
      s.files with
  | none => ⟨s, ⟨404, .error "File not found"⟩, []⟩
  | some file =>
    match saveExisting env.saveOk s.files file._id (markDeleted env.now) with
    | some files =>
      ⟨{ s with files := files }, ⟨200, .message "File moved to trash successfully"⟩, []⟩
    | none =>
      ⟨s, ⟨500, .error "Server error during file deletion"⟩, ["Soft delete error:"]⟩

/-- The handler of `POST /restore/:filename`. -/
def restore (env : Env) (s : Store) (user : Nat) (filename : String) : Result :=
  match findOne
      (fun f => f.filename == filename && f.uploadedBy == user && f.deleted == true)
      s.files with
  | none => ⟨s, ⟨404, .error "File not found in trash"⟩, []⟩
  | some file =>
    match saveExisting env.saveOk s.files file._id unmarkDeleted with
    | some files =>
      ⟨{ s with files := files }, ⟨200, .message "File restored successfully"⟩, []⟩
    | none =>
      ⟨s, ⟨500, .error "Server error during file restoration"⟩, ["Restore error:"]⟩

/-- The handler of `DELETE /permanent/:filename`: the blob is unlinked first, a failure of
that is logged and passed over; then the document is deleted. -/
def permanentDelete (env : Env) (s : Store) (user : Nat) (filename : String) : Result :=
  match findOne (fun f => f.filename == filename && f.uploadedBy == user) s.files with
  | none => ⟨s, ⟨404, .error "File not found"⟩, []⟩
  | some file =>
    let filePath := pathJoin uploadsDir file.filename
    let unlinked := unlink env.unlinkOk s.disk filePath
    let d := unlinked.getD s.disk
    let log := if unlinked.isSome then [] else ["Error deleting file from disk:"]
    match findByIdAndDelete env.deleteOk s.files file._id with
    | some files =>
      ⟨{ files := files, disk := d },
       ⟨200, .message "File permanently deleted successfully"⟩, log⟩
    | none =>
      ⟨{ s with disk := d }, ⟨500, .error "Server error during permanent file deletion"⟩,
       log ++ ["Permanent delete error:"]⟩

/-- The handler of `GET /info/:filename`. -/
def info (s : Store) (user : Nat) (filename : String) : Result :=
  match findOne (fun f => f.filename == filename && f.uploadedBy == user) s.files with
  | none => ⟨s, ⟨404, .error "File not found"⟩, []⟩
  | some file =>
    ⟨s, ⟨200, .file
      { filename := file.filename, originalName := file.originalName,
        mimetype := file.mimetype, size := file.size, uploadedAt := file.uploadedAt }⟩, []⟩

/-! ## Requests and runs -/

/-- A request to the file routes, with the authenticated user (`req.user._id`). -/
inductive Request where
  | upload (user : Nat) (payload : Option Payload)
  | list (user : Nat) (q : ListQuery)
  | download (user : Nat) (filename : String)
  | moveToTrash (user : Nat) (filename : String)
  | restore (user : Nat) (filename : String)
  | permanentDelete (user : Nat) (filename : String)
  | info (user : Nat) (filename : String)
  deriving DecidableEq, Repr

/-- Serves one request. -/
def step (rx : String → String → Bool) (env : Env) (s : Store) : Request → Result
  | .upload user payload => upload env s user payload
  | .list user q => list rx s user q
  | .download user k => download s user k
  | .moveToTrash user k => moveToTrash env s user k
  | .restore user k => restore env s user k
  | .permanentDelete user k => permanentDelete env s user k
  | .info user k => info s user k

/-- The requests that change a store: upload and the three lifecycle transitions. -/
def Request.isMutation : Request → Bool
  | .upload _ _ => true
  | .moveToTrash _ _ => true
  | .restore _ _ => true
  | .permanentDelete _ _ => true
  | _ => false

/-- Serves a sequence of requests one after the other, each with its own environment. -/
def run (rx : String → String → Bool) (s : Store) : List (Env × Request) → Store
  | [] => s
  | (env, req) :: rest => run rx (step rx env s req).store rest

/-! ## State predicates -/

/-- Every document has a blob under its storage key in the uploads directory. -/
def BlobPresent (s : Store) : Prop :=
  ∀ f ∈ s.files, pathExists s.disk (pathJoin uploadsDir f.filename) = true

/-- The `_id`s are pairwise distinct and so are the storage keys. -/
def WellFormed (s : Store) : Prop :=
  (s.files.map (fun f => f._id)).Nodup ∧ (s.files.map (fun f => f.filename)).Nodup

/-- The record invariant `deleted = true` iff `deletedAt` is not null. -/
def DeletedConsistent (f : FileRecord) : Prop :=
  f.deleted = true ↔ f.deletedAt ≠ none

/-- The storage key an upload request generates, when multer stores its payload. -/
def generatedKey : Env × Request → Option String
  | (env, .upload _ (some p)) => some (uniqueName env.uuid p.originalname)
  | _ => none

instance (s : Store) : Decidable (BlobPresent s) := by
  unfold BlobPresent; infer_instance

instance (s : Store) : Decidable (WellFormed s) := by
  unfold WellFormed; infer_instance

instance (f : FileRecord) : Decidable (DeletedConsistent f) := by
  unfold DeletedConsistent; infer_instance

/-! ## Sample data -/

/-- An active document of user 1 with a blob. -/
def sampleFile : FileRecord :=
  { _id := 1, filename := "u1-a.txt", originalName := "a.txt", mimetype := "text/plain",
    size := 2, path := "uploads/u1-a.txt", uploadedBy := 1, uploadedAt := 10,
    deleted := false, deletedAt := none }

/-- A store with `sampleFile` and its blob. -/
def sampleStore : Store :=
  { files := [sampleFile], disk := [("uploads/u1-a.txt", [104, 105])] }

/-- An environment in which every store call goes through. -/
def sampleEnv : Env :=
  { now := 20, uuid := "u2", objectId := 2, writeOk := true, saveOk := true,
    unlinkOk := true, deleteOk := true }

/-- A permanent delete whose document delete fails although its unlink call goes through. -/
def tornDelete : Env × Request → Bool
  | (env, .permanentDelete _ _) => env.unlinkOk && !env.deleteOk
  | _ => false

/-- A trashed document of user 1. -/
def sampleTrashed : FileRecord :=
  { sampleFile with _id := 5, filename := "u5-t.txt", deleted := true, deletedAt := some 15 }

/-- A store with `sampleFile`, `sampleTrashed` and their blobs. -/
def sampleStore2 : Store :=
  { files := [sampleFile, sampleTrashed],
    disk := [("uploads/u1-a.txt", [104, 105]), ("uploads/u5-t.txt", [1])] }

/-- A sequence of requests: an upload whose save fails and whose cleanup fails,
an upload that goes through, and the three transitions, the last with a failing unlink. -/
def sampleTrace : List (Env × Request) :=
  [({ sampleEnv with uuid := "u3", objectId := 3, saveOk := false, unlinkOk := false },
      .upload 2 (some ⟨"b.txt", "text/plain", [1]⟩)),
   (sampleEnv, .upload 2 (some ⟨"c.txt", "text/plain", [1, 2]⟩)),
   (sampleEnv, .moveToTrash 1 "u1-a.txt"),
   ({ sampleEnv with saveOk := false }, .restore 1 "u1-a.txt"),
   ({ sampleEnv with unlinkOk := false }, .permanentDelete 2 "u2-c.txt")]

/-! ## The parts of a list response -/

/-- The `files` array of a list response; an error response has none. -/
def Response.entries (r : Response) : List FileEntry :=
  match r.body with
  | .files es _ => es
  | _ => []

/-- The `pagination` object of a list response; an error response has none. -/
def Response.pageInfo (r : Response) : Option Pagination :=
  match r.body with
  | .files _ pg => some pg
  | _ => none

/-- The trash selector of the list filter: `deleted: true` for `trash === 'true'`,
`deleted: { $ne: true }` otherwise. -/
def trashSelects (trash : String) (f : FileRecord) : Bool :=
  if trash = "true" then f.deleted == true else f.deleted != true

/-! ## Regular-expression test

The database evaluates `$regex` with `$options: 'i'`. The fragment interpreted here is the
patterns made of ordinary characters and the dot; a pattern with any other special
character is left to the engine, a parameter `ext`. Letters are compared after ASCII case
folding. -/

/-- The characters with a special meaning in a pattern: backslash, `^`, `$`, `.`, `[`, `]`,
`|`, `(`, `)`, `?`, `*`, `+` and the braces. -/
def regexSpecialChars : List Char :=
  [Char.ofNat 92, '^', '$', '.', '[', ']', '|', '(', ')', '?', '*', '+', Char.ofNat 123,
   Char.ofNat 125]

/-- One pattern character against one subject character: the dot matches every character
but the line feed, an ordinary character matches itself in either case. -/
def atomMatches (p c : Char) : Bool :=
  if p = '.' then c != Char.ofNat 10 else p.toLower == c.toLower

/-- The pattern matches at the start of the subject. -/
def matchHere : List Char → List Char → Bool
  | [], _ => true
  | _ :: _, [] => false
  | p :: ps, c :: cs => atomMatches p c && matchHere ps cs

/-- The pattern matches somewhere in the subject (an unanchored search). -/
def matchAnywhere (ps : List Char) : List Char → Bool
  | [] => matchHere ps []
  | c :: cs => matchHere ps (c :: cs) || matchAnywhere ps cs

/-- Whether the pattern has only ordinary characters and dots. -/
def dotPattern (pat : String) : Bool :=
  pat.data.all (fun c => c == '.' || !regexSpecialChars.contains c)

/-- The case-insensitive regular-expression test of the list filter. -/
def regexTest (ext : String → String → Bool) (pat subject : String) : Bool :=
  if dotPattern pat then matchAnywhere pat.data subject.data else ext pat subject

/-- Modelled from the spec: "case-insensitive substring match": the name, compared
case-insensitively, contains the search string as a literal substring. -/
def containsIgnoreCase (name search : String) : Prop :=
  ∃ before after : List Char,
    name.data.map Char.toLower = before ++ search.data.map Char.toLower ++ after

instance (name search : String) : Decidable (containsIgnoreCase name search) :=
  decidable_of_iff (search.data.map Char.toLower <:+: name.data.map Char.toLower)
    ⟨fun ⟨a, b, h⟩ => ⟨a, b, h.symm⟩, fun ⟨a, b, h⟩ => ⟨a, b, h.symm⟩⟩

/-! ## More sample data -/

/-- An active document of user 1 named `Report.PDF`, uploaded at time 30. -/
def samplePdf : FileRecord :=
  { sampleFile with _id := 2, filename := "u2-Report.PDF", originalName := "Report.PDF",
                    mimetype := "application/pdf", uploadedAt := 30 }

/-- An active document of user 1 named `abc.txt`, uploaded at time 20. -/
def sampleAbc : FileRecord :=
  { sampleFile with _id := 3, filename := "u3-abc.txt", originalName := "abc.txt",
                    uploadedAt := 20 }

/-- An active document of user 2, uploaded at time 40. -/
def sampleOther : FileRecord :=
  { sampleFile with _id := 4, filename := "u4-z.txt", originalName := "z.txt",
                    uploadedBy := 2, uploadedAt := 40 }

/-- The documents of user 1 (three active ones uploaded at times 10, 30 and 20, and the
trashed one) and one document of user 2. -/
def sampleStore3 : Store :=
  { files := [sampleFile, samplePdf, sampleAbc, sampleTrashed, sampleOther],
    disk := [("uploads/u1-a.txt", [104, 105]), ("uploads/u2-Report.PDF", [1]),
             ("uploads/u5-t.txt", [1])] }

/-- The requester's records in the selected trash state, newest first. -/
def orderedRecords (s : Store) (o : Nat) (trash : String) : List FileRecord :=
  (s.files.filter (fun f => f.uploadedBy == o && trashSelects trash f)).insertionSort
    (fun a b => a.uploadedAt ≥ b.uploadedAt)

/-- A regular-expression engine that refuses everything outside the interpreted
fragment. -/
def noExt : String → String → Bool := fun _ _ => false

/-- Twenty-one active documents of user 1, uploaded at times 0 to 20, without blobs. -/
def sampleMany : Store :=
  { files := (List.range 21).map (fun i =>
      { sampleFile with _id := 100 + i, filename := "k" ++ toString i, uploadedAt := i }),
    disk := [] }

/-- The store `sampleStore` with the declared mimetype of every document replaced. -/
def samplePngStore : Store :=
  { sampleStore with files := [{ sampleFile with mimetype := "image/png" }] }

/-! ## The list handler on JavaScript numbers

`page` and `limit` reach the handler as decimal strings and every operation on them
(`page - 1`, `* limit`, `parseInt`, the comparisons) works on doubles: an integer of more
than 53 significant bits is replaced by the nearest double. `list` above is the handler on
exact integers; `listJs` rounds as the handler does, and the two agree as long as
`page * limit` stays below `2^53`. -/

/-- Rounds `n` to a multiple of `2^e`: the nearest one, and of two equally near ones the
even multiple. -/
def roundToEven (e n : Nat) : Nat :=
  let q := n / 2 ^ e
  let r := n % 2 ^ e
  if 2 * r < 2 ^ e then q * 2 ^ e
  else if 2 * r = 2 ^ e ∧ q % 2 = 0 then q * 2 ^ e
  else (q + 1) * 2 ^ e

/-- The double nearest to `n`, looking for the least `e` from the given one on with
`n < 2^(53+e)` (doubles are `2^e` apart there); `none` when the result is beyond the
largest finite double (Infinity): no such `e` up to 971, or a rounding up to `2^1024`. -/
def nearestDoubleFrom : Nat → Nat → Nat → Option Nat
  | 0, _, _ => none
  | fuel + 1, e, n =>
    if n < 2 ^ (53 + e) then
      if e = 971 ∧ 2 ^ 53 ≤ roundToEven e n / 2 ^ e then none else some (roundToEven e n)
    else nearestDoubleFrom fuel (e + 1) n

/-- The double nearest to a natural number: the number itself below `2^53`. -/
def nearestDouble (n : Nat) : Option Nat := nearestDoubleFrom 972 0 n

/-- The JavaScript number that an integer becomes (`Number`, `parseInt` of its decimal
string, or the result of an operation whose exact value it is); `none` is Infinity. -/
def jsNumber (n : Int) : Option Int :=
  match nearestDouble n.natAbs with
  | some m => some (if n < 0 then -(m : Int) else (m : Int))
  | none => none

/-- The value of `(page - 1) * limit` on JavaScript numbers. -/
def skipJs (page limit : Int) : Option Int :=
  match jsNumber (page - 1) with
  | some d => jsNumber (d * limit)
  | none => none

/-- The handler of `GET /` with `page` and `limit` as JavaScript numbers. A parameter or a
skip that is not finite is refused by the database; the quotient `total / limit` is taken
exactly. -/
def listJs (rx : String → String → Bool) (s : Store) (user : Nat) (q : ListQuery) : Result :=
  let search := q.search.getD ""
  let trash := q.trash.getD "false"
  let matching := s.files.filter (listFilter rx user trash search)
  match jsNumber (q.page.getD 1), jsNumber (q.limit.getD 20) with
  | some page, some limit =>
    match skipJs page limit with
    | some skip =>
      if skip < 0 then
        ⟨s, ⟨500, .error "Server error while fetching files"⟩, ["Get files error:"]⟩
      else
        let sorted := matching.insertionSort (fun a b => a.uploadedAt ≥ b.uploadedAt)
        let files := applyLimit limit (sorted.drop skip.natAbs)
        let total := matching.length
        ⟨s, ⟨200, .files (files.map toEntry)
          { currentPage := page, totalPages := ceilDiv total limit, totalFiles := total,
            hasNextPage :=
              match jsNumber (page * limit) with
              | some reach => decide (reach < (total : Int))
              | none => false,
            hasPrevPage := decide (page > 1) }⟩, []⟩
    | none => ⟨s, ⟨500, .error "Server error while fetching files"⟩, ["Get files error:"]⟩
  | _, _ => ⟨s, ⟨500, .error "Server error while fetching files"⟩, ["Get files error:"]⟩

/-! ## The pagination bar of the client (`components/files/FileList.js`) -/

/-- Whether the Next button of the `Pagination` component can be pressed: the component
renders nothing for `totalPages <= 1` (a `null` counts as 0 there), otherwise the button is
disabled when `hasNextPage` is false. -/
def nextButtonEnabled (pg : Pagination) : Bool :=
  match pg.totalPages with
  | none => false
  | some t => if t ≤ 1 then false else pg.hasNextPage

/-! ## Lemmas on the store calls -/

theorem pathJoin_inj {d a b : String} (h : pathJoin d a = pathJoin d b) : a = b := by
  unfold pathJoin at h
  have h2 := congrArg String.data h
  simp only [String.data_append] at h2
  exact String.ext (List.append_cancel_left h2)

theorem pathExists_filter_ne (d : Disk) (p q : String) (h : q ≠ p) :
    pathExists (d.filter (fun b => b.1 != p)) q = pathExists d q := by
  unfold pathExists
  induction d with
  | nil => rfl
  | cons b bs ih =>
    by_cases hb : b.1 = p
    · have hq : b.1 ≠ q := fun e => h (e ▸ hb)
      simp [List.filter_cons, hb, hq, ih, Ne.symm h]
    · simp [List.filter_cons, hb, ih]

theorem pathExists_writeFile_self (d : Disk) (p : String) (bytes : List Nat) :
    pathExists (writeFile d p bytes) p = true := by
  simp [pathExists, writeFile]

theorem pathExists_writeFile_of (d : Disk) (p q : String) (bytes : List Nat)
    (h : pathExists d q = true) : pathExists (writeFile d p bytes) q = true := by
  by_cases hq : q = p
  · subst hq; exact pathExists_writeFile_self d q bytes
  · have h2 := pathExists_filter_ne d p q hq
    unfold pathExists writeFile at *
    rw [List.any_cons, h2, h]
    simp

theorem pathExists_filter_self (d : Disk) (p : String) :
    pathExists (d.filter (fun b => b.1 != p)) p = false := by
  simp [pathExists]

theorem unlink_some {ok : Bool} {d d2 : Disk} {p : String} (h : unlink ok d p = some d2) :
    ok = true ∧ pathExists d p = true ∧ d2 = d.filter (fun b => b.1 != p) := by
  unfold unlink at h
  split at h
  · rename_i hc
    simp only [Bool.and_eq_true] at hc
    exact ⟨hc.1, hc.2, (Option.some.inj h).symm⟩
  · exact absurd h (by simp)

theorem unlink_none {ok : Bool} {d : Disk} {p : String} (h : unlink ok d p = none) :
    ok = false ∨ pathExists d p = false := by
  unfold unlink at h
  split at h
  · exact absurd h (by simp)
  · rename_i hc
    simp only [Bool.and_eq_true, not_and_or, Bool.not_eq_true] at hc
    exact hc

theorem findOne_some {q : FileRecord → Bool} {l : List FileRecord} {f : FileRecord}
    (h : findOne q l = some f) : f ∈ l ∧ q f = true :=
  ⟨List.mem_of_find?_eq_some h, List.find?_some h⟩

theorem findOne_none {q : FileRecord → Bool} {l : List FileRecord}
    (h : findOne q l = none) : ∀ f ∈ l, q f = false := by
  intro f hf
  have := List.find?_eq_none.mp h f hf
  simpa using this

theorem map_updateById {α : Type} (p : FileRecord → α) (id : Nat)
    (g : FileRecord → FileRecord) (hg : ∀ f, p (g f) = p f) (l : List FileRecord) :
    (updateById id g l).map p = l.map p := by
  induction l with
  | nil => rfl
  | cons f fs ih =>
    unfold updateById
    split
    · simp [hg]
    · simp [ih]

theorem mem_updateById {id : Nat} {g : FileRecord → FileRecord} {l : List FileRecord}
    {x : FileRecord} (h : x ∈ updateById id g l) : x ∈ l ∨ ∃ f ∈ l, f._id = id ∧ x = g f := by
  induction l with
  | nil => simp [updateById] at h
  | cons f fs ih =>
    unfold updateById at h
    split at h
    · rename_i hid
      rcases List.mem_cons.mp h with h1 | h1
      · exact Or.inr ⟨f, List.mem_cons_self _ _, hid, h1⟩
      · exact Or.inl (List.mem_cons_of_mem _ h1)
    · rcases List.mem_cons.mp h with h1 | h1
      · exact Or.inl (h1 ▸ List.mem_cons_self _ _)
      · rcases ih h1 with h2 | ⟨y, hy, hyid, hx⟩
        · exact Or.inl (List.mem_cons_of_mem _ h2)
        · exact Or.inr ⟨y, List.mem_cons_of_mem _ hy, hyid, hx⟩

theorem removeById_sublist (id : Nat) (l : List FileRecord) :
    (removeById id l).Sublist l := by
  induction l with
  | nil => exact List.Sublist.refl _
  | cons f fs ih =>
    unfold removeById
    split
    · exact List.sublist_cons_self _ _
    · exact ih.cons₂ _

theorem removeById_not_mem_id {id : Nat} {l : List FileRecord}
    (hid : (l.map (fun f => f._id)).Nodup) : ∀ x ∈ removeById id l, x._id ≠ id := by
  induction l with
  | nil => intro x hx; simp [removeById] at hx
  | cons f fs ih =>
    rw [List.map_cons, List.nodup_cons] at hid
    intro x hx
    unfold removeById at hx
    split at hx
    · rename_i hf
      intro hxid
      exact hid.1 (List.mem_map.mpr ⟨x, hx, by rw [hxid, hf]⟩)
    · rename_i hf
      rcases List.mem_cons.mp hx with h1 | h1
      · rw [h1]; exact hf
      · exact ih hid.2 x h1

theorem eq_of_mem_of_key {l : List FileRecord}
    (hk : (l.map (fun f => f.filename)).Nodup) {x y : FileRecord} (hx : x ∈ l) (hy : y ∈ l)
    (h : x.filename = y.filename) : x = y :=
  List.inj_on_of_nodup_map hk hx hy h

theorem eq_of_mem_of_id {l : List FileRecord}
    (hid : (l.map (fun f => f._id)).Nodup) {x y : FileRecord} (hx : x ∈ l) (hy : y ∈ l)
    (h : x._id = y._id) : x = y :=
  List.inj_on_of_nodup_map hid hx hy h

/-! ## Effect of each handler on the stores -/

theorem moveToTrash_notFound {env : Env} {s : Store} {u : Nat} {k : String}
    (h : findOne (fun f => f.filename == k && f.uploadedBy == u && f.deleted != true)
      s.files = none) :
    moveToTrash env s u k = ⟨s, ⟨404, .error "File not found"⟩, []⟩ := by
  simp only [moveToTrash, h]

theorem moveToTrash_saved {env : Env} {s : Store} {u : Nat} {k : String} {file : FileRecord}
    (h : findOne (fun f => f.filename == k && f.uploadedBy == u && f.deleted != true)
      s.files = some file) (hs : env.saveOk = true) :
    moveToTrash env s u k =
      ⟨{ s with files := updateById file._id (markDeleted env.now) s.files },
       ⟨200, .message "File moved to trash successfully"⟩, []⟩ := by
  simp only [moveToTrash, h, saveExisting, hs, if_true]

theorem moveToTrash_fault {env : Env} {s : Store} {u : Nat} {k : String} {file : FileRecord}
    (h : findOne (fun f => f.filename == k && f.uploadedBy == u && f.deleted != true)
      s.files = some file) (hs : env.saveOk = false) :
    moveToTrash env s u k =
      ⟨s, ⟨500, .error "Server error during file deletion"⟩, ["Soft delete error:"]⟩ := by
  simp only [moveToTrash, h, saveExisting, hs, Bool.false_eq_true, if_false]

theorem restore_notFound {env : Env} {s : Store} {u : Nat} {k : String}
    (h : findOne (fun f => f.filename == k && f.uploadedBy == u && f.deleted == true)
      s.files = none) :
    restore env s u k = ⟨s, ⟨404, .error "File not found in trash"⟩, []⟩ := by
  simp only [restore, h]

theorem restore_saved {env : Env} {s : Store} {u : Nat} {k : String} {file : FileRecord}
    (h : findOne (fun f => f.filename == k && f.uploadedBy == u && f.deleted == true)
      s.files = some file) (hs : env.saveOk = true) :
    restore env s u k =
      ⟨{ s with files := updateById file._id unmarkDeleted s.files },
       ⟨200, .message "File restored successfully"⟩, []⟩ := by
  simp only [restore, h, saveExisting, hs, if_true]

theorem restore_fault {env : Env} {s : Store} {u : Nat} {k : String} {file : FileRecord}
    (h : findOne (fun f => f.filename == k && f.uploadedBy == u && f.deleted == true)
      s.files = some file) (hs : env.saveOk = false) :
    restore env s u k =
      ⟨s, ⟨500, .error "Server error during file restoration"⟩, ["Restore error:"]⟩ := by
  simp only [restore, h, saveExisting, hs, Bool.false_eq_true, if_false]

theorem permanentDelete_notFound {env : Env} {s : Store} {u : Nat} {k : String}
    (h : findOne (fun f => f.filename == k && f.uploadedBy == u) s.files = none) :
    permanentDelete env s u k = ⟨s, ⟨404, .error "File not found"⟩, []⟩ := by
  simp only [permanentDelete, h]

theorem permanentDelete_deleted {env : Env} {s : Store} {u : Nat} {k : String}
    {file : FileRecord}
    (h : findOne (fun f => f.filename == k && f.uploadedBy == u) s.files = some file)
    (hd : env.deleteOk = true) :
    permanentDelete env s u k =
      ⟨{ files := removeById file._id s.files,
         disk :=
           (unlink env.unlinkOk s.disk (pathJoin uploadsDir file.filename)).getD s.disk },
       ⟨200, .message "File permanently deleted successfully"⟩,
       if (unlink env.unlinkOk s.disk (pathJoin uploadsDir file.filename)).isSome then []
       else ["Error deleting file from disk:"]⟩ := by
  simp only [permanentDelete, h, findByIdAndDelete, hd, if_true]

theorem permanentDelete_fault {env : Env} {s : Store} {u : Nat} {k : String}
    {file : FileRecord}
    (h : findOne (fun f => f.filename == k && f.uploadedBy == u) s.files = some file)
    (hd : env.deleteOk = false) :
    permanentDelete env s u k =
      ⟨{ s with
         disk :=
           (unlink env.unlinkOk s.disk (pathJoin uploadsDir file.filename)).getD s.disk },
       ⟨500, .error "Server error during permanent file deletion"⟩,
       (if (unlink env.unlinkOk s.disk (pathJoin uploadsDir file.filename)).isSome then []
        else ["Error deleting file from disk:"]) ++ ["Permanent delete error:"]⟩ := by
  simp only [permanentDelete, h, findByIdAndDelete, hd, Bool.false_eq_true, if_false]

theorem moveToTrash_store (env : Env) (s : Store) (u : Nat) (k : String) :
    (moveToTrash env s u k).store.disk = s.disk
      ∧ (moveToTrash env s u k).store.files.map (fun f => f.filename)
          = s.files.map (fun f => f.filename)
      ∧ (moveToTrash env s u k).store.files.map (fun f => f._id)
          = s.files.map (fun f => f._id) := by
  cases h : findOne (fun f => f.filename == k && f.uploadedBy == u && f.deleted != true)
      s.files with
  | none => rw [moveToTrash_notFound h]; exact ⟨rfl, rfl, rfl⟩
  | some file =>
    cases hs : env.saveOk with
    | false => rw [moveToTrash_fault h hs]; exact ⟨rfl, rfl, rfl⟩
    | true =>
      rw [moveToTrash_saved h hs]
      exact ⟨rfl,
        map_updateById (fun f => f.filename) file._id (markDeleted env.now) (fun _ => rfl) _,
        map_updateById (fun f => f._id) file._id (markDeleted env.now) (fun _ => rfl) _⟩

theorem restore_store (env : Env) (s : Store) (u : Nat) (k : String) :
    (restore env s u k).store.disk = s.disk
      ∧ (restore env s u k).store.files.map (fun f => f.filename)
          = s.files.map (fun f => f.filename)
      ∧ (restore env s u k).store.files.map (fun f => f._id)
          = s.files.map (fun f => f._id) := by
  cases h : findOne (fun f => f.filename == k && f.uploadedBy == u && f.deleted == true)
      s.files with
  | none => rw [restore_notFound h]; exact ⟨rfl, rfl, rfl⟩
  | some file =>
    cases hs : env.saveOk with
    | false => rw [restore_fault h hs]; exact ⟨rfl, rfl, rfl⟩
    | true =>
      rw [restore_saved h hs]
      exact ⟨rfl,
        map_updateById (fun f => f.filename) file._id unmarkDeleted (fun _ => rfl) _,
        map_updateById (fun f => f._id) file._id unmarkDeleted (fun _ => rfl) _⟩

theorem blobPresent_of_maps {s t : Store} (hd : t.disk = s.disk)
    (hn : t.files.map (fun f => f.filename) = s.files.map (fun f => f.filename))
    (hb : BlobPresent s) : BlobPresent t := by
  intro f hf
  have h1 : f.filename ∈ t.files.map (fun f => f.filename) := List.mem_map.mpr ⟨f, hf, rfl⟩
  rw [hn] at h1
  obtain ⟨g, hg, hgf⟩ := List.mem_map.mp h1
  have h2 := hb g hg
  have hgf2 : g.filename = f.filename := hgf
  rw [hd, ← hgf2]
  exact h2

theorem permanentDelete_files_sublist (env : Env) (s : Store) (u : Nat) (k : String) :
    (permanentDelete env s u k).store.files.Sublist s.files := by
  cases h : findOne (fun f => f.filename == k && f.uploadedBy == u) s.files with
  | none => rw [permanentDelete_notFound h]
  | some file =>
    cases hd : env.deleteOk with
    | false => rw [permanentDelete_fault h hd]
    | true => rw [permanentDelete_deleted h hd]; exact removeById_sublist _ _

theorem permanentDelete_blobPresent (env : Env) (s : Store) (u : Nat) (k : String)
    (hb : BlobPresent s) (hw : WellFormed s)
    (ht : tornDelete (env, .permanentDelete u k) = false) :
    BlobPresent (permanentDelete env s u k).store := by
  cases h : findOne (fun f => f.filename == k && f.uploadedBy == u) s.files with
  | none => rw [permanentDelete_notFound h]; exact hb
  | some file =>
    have hmem := (findOne_some h).1
    cases hu : unlink env.unlinkOk s.disk (pathJoin uploadsDir file.filename) with
    | none =>
      cases hd : env.deleteOk with
      | false =>
        rw [permanentDelete_fault h hd, hu]
        exact hb
      | true =>
        rw [permanentDelete_deleted h hd, hu]
        intro f hf
        exact hb f ((removeById_sublist _ _).subset hf)
    | some d =>
      obtain ⟨hok, -, hdisk⟩ := unlink_some hu
      have hd : env.deleteOk = true := by
        simpa [tornDelete, hok] using ht
      rw [permanentDelete_deleted h hd, hu]
      intro f hf
      have hfs : f ∈ s.files := (removeById_sublist _ _).subset hf
      have hne : f.filename ≠ file.filename := by
        intro e
        have := eq_of_mem_of_key hw.2 hfs hmem e
        exact removeById_not_mem_id hw.1 f hf (by rw [this])
      have hp : pathJoin uploadsDir f.filename ≠ pathJoin uploadsDir file.filename :=
        fun e => hne (pathJoin_inj e)
      show pathExists d _ = true
      rw [hdisk, pathExists_filter_ne _ _ _ hp]
      exact hb f hfs

theorem upload_noFile (env : Env) (s : Store) (u : Nat) :
    upload env s u none = ⟨s, ⟨400, .error "No file uploaded"⟩, []⟩ := rfl

theorem upload_rejected {env : Env} {s : Store} {u : Nat} {p : Payload}
    (h : p.bytes.length > fileSizeLimit ∨ env.writeOk = false) :
    upload env s u (some p) = ⟨s, ⟨500, .unhandled⟩, []⟩ := by
  unfold upload uploadSingle
  rcases h with h | h
  · simp only [h, if_true]
  · by_cases hs : p.bytes.length > fileSizeLimit
    · simp only [hs, if_true]
    · simp only [hs, h, if_false, Bool.false_eq_true]

theorem upload_saved {env : Env} {s : Store} {u : Nat} {p : Payload}
    {files : List FileRecord}
    (hs : ¬ p.bytes.length > fileSizeLimit) (hw : env.writeOk = true)
    (hsave : saveNew env.saveOk s.files (newFile env u (storedFile env p)) = some files) :
    upload env s u (some p) =
      ⟨{ files := files, disk := writeFile s.disk (storedFile env p).path p.bytes },
       ⟨201, .uploaded "File uploaded successfully"
          { id := env.objectId, filename := uniqueName env.uuid p.originalname,
            originalName := p.originalname, mimetype := p.mimetype, size := p.bytes.length,
            uploadedAt := env.now }⟩, []⟩ := by
  unfold upload uploadSingle
  simp only [hs, hw, if_true, if_false, uploadHandler, hsave]
  rfl

theorem upload_compensated {env : Env} {s : Store} {u : Nat} {p : Payload}
    (hs : ¬ p.bytes.length > fileSizeLimit) (hw : env.writeOk = true)
    (hsave : saveNew env.saveOk s.files (newFile env u (storedFile env p)) = none) :
    upload env s u (some p) =
      if env.unlinkOk = true then
        ⟨{ files := s.files,
           disk := (writeFile s.disk (storedFile env p).path p.bytes).filter
             (fun b => b.1 != (storedFile env p).path) },
         ⟨500, .error "Server error during file upload"⟩, ["Upload error:"]⟩
      else
        ⟨{ files := s.files, disk := writeFile s.disk (storedFile env p).path p.bytes },
         ⟨500, .error "Server error during file upload"⟩,
         ["Upload error:", "Error deleting uploaded file:"]⟩ := by
  unfold upload uploadSingle
  simp only [hs, hw, if_true, if_false, uploadHandler, hsave, unlink,
    pathExists_writeFile_self, Bool.and_true]
  cases env.unlinkOk <;> rfl

theorem saveNew_some {ok : Bool} {files files2 : List FileRecord} {doc : FileRecord}
    (h : saveNew ok files doc = some files2) :
    ok = true ∧ doc._id ∉ files.map (fun f => f._id) ∧ files2 = files ++ [doc] := by
  unfold saveNew at h
  split at h
  · rename_i hc
    simp only [Bool.and_eq_true, Bool.not_eq_true', List.any_eq_false, beq_iff_eq] at hc
    refine ⟨hc.1, ?_, (Option.some.inj h).symm⟩
    intro hm
    obtain ⟨f, hf, hfid⟩ := List.mem_map.mp hm
    exact hc.2 f hf hfid
  · exact absurd h (by simp)

/-! ## Blob presence along a run -/

theorem upload_preserves (env : Env) (s : Store) (u : Nat) (payload : Option Payload)
    (rest : List String) (hb : BlobPresent s)
    (hid : (s.files.map (fun f => f._id)).Nodup)
    (hk : ((generatedKey (env, .upload u payload)).toList
        ++ (rest ++ s.files.map (fun f => f.filename))).Nodup) :
    BlobPresent (upload env s u payload).store
      ∧ ((upload env s u payload).store.files.map (fun f => f._id)).Nodup
      ∧ (rest ++ (upload env s u payload).store.files.map (fun f => f.filename)).Nodup := by
  cases payload with
  | none =>
    rw [upload_noFile]
    exact ⟨hb, hid, by simpa [generatedKey] using hk⟩
  | some p =>
    simp only [generatedKey, Option.toList, List.singleton_append, List.nodup_cons,
      List.mem_append, not_or] at hk
    obtain ⟨⟨hkr, hkn⟩, hnd⟩ := hk
    by_cases hrej : p.bytes.length > fileSizeLimit ∨ env.writeOk = false
    · rw [upload_rejected hrej]
      exact ⟨hb, hid, hnd⟩
    · simp only [not_or, Bool.not_eq_false] at hrej
      obtain ⟨hs, hw⟩ := hrej
      cases hsave : saveNew env.saveOk s.files (newFile env u (storedFile env p)) with
      | some files =>
        obtain ⟨-, hnew, hfiles⟩ := saveNew_some hsave
        rw [upload_saved hs hw hsave]
        subst hfiles
        refine ⟨?_, ?_, ?_⟩
        · intro f hf
          rcases List.mem_append.mp hf with h1 | h1
          · exact pathExists_writeFile_of _ _ _ _ (hb f h1)
          · rw [List.mem_singleton] at h1
            subst h1
            exact pathExists_writeFile_self _ _ _
        · show ((s.files ++ [newFile env u (storedFile env p)]).map (fun f => f._id)).Nodup
          rw [List.map_append, List.map_singleton]
          exact List.Nodup.append hid (List.nodup_singleton _)
            (List.disjoint_singleton.mpr hnew)
        · show (rest ++ (s.files ++ [newFile env u (storedFile env p)]).map
            (fun f => f.filename)).Nodup
          rw [List.map_append, List.map_singleton, ← List.append_assoc]
          exact List.Nodup.append hnd (List.nodup_singleton _)
            (List.disjoint_singleton.mpr (by
              show uniqueName env.uuid p.originalname ∉ _
              simp only [List.mem_append, not_or]
              exact ⟨hkr, hkn⟩))
      | none =>
        rw [upload_compensated hs hw hsave]
        split
        · refine ⟨?_, hid, hnd⟩
          intro f hf
          have hne : f.filename ≠ uniqueName env.uuid p.originalname := by
            intro e
            exact hkn (List.mem_map.mpr ⟨f, hf, e⟩)
          have hp : pathJoin uploadsDir f.filename ≠ (storedFile env p).path :=
            fun e => hne (pathJoin_inj e)
          show pathExists (List.filter _ _) _ = true
          rw [pathExists_filter_ne _ _ _ hp]
          exact pathExists_writeFile_of _ _ _ _ (hb f hf)
        · refine ⟨?_, hid, hnd⟩
          intro f hf
          exact pathExists_writeFile_of _ _ _ _ (hb f hf)

theorem nodup_of_sublist_right {rest a b : List String} (h : a.Sublist b)
    (hn : (rest ++ b).Nodup) : (rest ++ a).Nodup :=
  hn.sublist (List.Sublist.append (List.Sublist.refl rest) h)

theorem step_preserves (rx : String → String → Bool) (env : Env) (s : Store) (req : Request)
    (rest : List String) (hb : BlobPresent s)
    (hid : (s.files.map (fun f => f._id)).Nodup)
    (hk : ((generatedKey (env, req)).toList
        ++ (rest ++ s.files.map (fun f => f.filename))).Nodup)
    (ht : tornDelete (env, req) = false) :
    BlobPresent (step rx env s req).store
      ∧ ((step rx env s req).store.files.map (fun f => f._id)).Nodup
      ∧ (rest ++ (step rx env s req).store.files.map (fun f => f.filename)).Nodup := by
  cases req with
  | upload u payload => exact upload_preserves env s u payload rest hb hid hk
  | list u q =>
    have hs : (step rx env s (.list u q)).store = s := by
      unfold step list
      simp only
      split <;> rfl
    rw [hs]
    exact ⟨hb, hid, by simpa [generatedKey] using hk⟩
  | download u k =>
    have hs : (step rx env s (.download u k)).store = s := by
      unfold step download
      simp only
      split
      · rfl
      · split <;> rfl
    rw [hs]
    exact ⟨hb, hid, by simpa [generatedKey] using hk⟩
  | info u k =>
    have hs : (step rx env s (.info u k)).store = s := by
      unfold step info
      simp only
      split <;> rfl
    rw [hs]
    exact ⟨hb, hid, by simpa [generatedKey] using hk⟩
  | moveToTrash u k =>
    obtain ⟨h1, h2, h3⟩ := moveToTrash_store env s u k
    have hk2 : (rest ++ s.files.map (fun f => f.filename)).Nodup := by
      simpa [generatedKey] using hk
    simp only [step]
    rw [h2, h3]
    exact ⟨blobPresent_of_maps h1 h2 hb, hid, hk2⟩
  | restore u k =>
    obtain ⟨h1, h2, h3⟩ := restore_store env s u k
    have hk2 : (rest ++ s.files.map (fun f => f.filename)).Nodup := by
      simpa [generatedKey] using hk
    simp only [step]
    rw [h2, h3]
    exact ⟨blobPresent_of_maps h1 h2 hb, hid, hk2⟩
  | permanentDelete u k =>
    have hk2 : (rest ++ s.files.map (fun f => f.filename)).Nodup := by
      simpa [generatedKey] using hk
    have hsub := permanentDelete_files_sublist env s u k
    simp only [step]
    refine ⟨permanentDelete_blobPresent env s u k hb ⟨hid, ?_⟩ ht, ?_, ?_⟩
    · exact (List.nodup_append.mp hk2).2.1
    · exact hid.sublist (hsub.map _)
    · exact nodup_of_sublist_right (hsub.map _) hk2

theorem run_preserves (rx : String → String → Bool) (tr : List (Env × Request)) :
    ∀ s : Store, BlobPresent s → (s.files.map (fun f => f._id)).Nodup →
      (tr.filterMap generatedKey ++ s.files.map (fun f => f.filename)).Nodup →
      (∀ er ∈ tr, tornDelete er = false) → BlobPresent (run rx s tr) := by
  induction tr with
  | nil => intro s hb _ _ _; exact hb
  | cons er rest ih =>
    intro s hb hid hk ht
    obtain ⟨env, req⟩ := er
    have hk2 : ((generatedKey (env, req)).toList
        ++ (rest.filterMap generatedKey ++ s.files.map (fun f => f.filename))).Nodup := by
      rw [List.filterMap_cons] at hk
      cases hg : generatedKey (env, req) with
      | none => rw [hg] at hk; simpa using hk
      | some key => rw [hg] at hk; simpa using hk
    obtain ⟨h1, h2, h3⟩ := step_preserves rx env s req (rest.filterMap generatedKey) hb hid hk2
      (ht _ (List.mem_cons_self _ _))
    exact ih _ h1 h2 h3 (fun er her => ht er (List.mem_cons_of_mem _ her))

/-! ## Lookups and updates in a well-formed collection -/

theorem findOne_eq_of_unique {l : List FileRecord} {q : FileRecord → Bool} {r : FileRecord}
    (hk : (l.map (fun f => f.filename)).Nodup) (hr : r ∈ l) (hq : q r = true)
    (hqk : ∀ f, q f = true → f.filename = r.filename) : findOne q l = some r := by
  cases h : findOne q l with
  | none => exact absurd hq (by rw [findOne_none h r hr]; simp)
  | some f =>
    obtain ⟨hf, hqf⟩ := findOne_some h
    rw [eq_of_mem_of_key hk hf hr (hqk f hqf)]

theorem mem_updateById_self {l : List FileRecord} {r : FileRecord}
    (g : FileRecord → FileRecord) (hid : (l.map (fun f => f._id)).Nodup) (hr : r ∈ l) :
    g r ∈ updateById r._id g l := by
  induction l with
  | nil => simp at hr
  | cons f fs ih =>
    have hid2 := hid
    rw [List.map_cons, List.nodup_cons] at hid2
    unfold updateById
    split
    · rename_i hf
      have : f = r := eq_of_mem_of_id hid (List.mem_cons_self _ _) hr hf
      rw [this]
      exact List.mem_cons_self _ _
    · rename_i hf
      rcases List.mem_cons.mp hr with h1 | h1
      · exact absurd (by rw [h1]) hf
      · exact List.mem_cons_of_mem _ (ih hid2.2 h1)

theorem updateById_of_id {l : List FileRecord} {r x : FileRecord}
    (g : FileRecord → FileRecord) (hg : ∀ f, (g f)._id = f._id)
    (hid : (l.map (fun f => f._id)).Nodup) (hr : r ∈ l)
    (hx : x ∈ updateById r._id g l) (hxid : x._id = r._id) : x = g r := by
  rcases mem_updateById hx with h1 | ⟨f, hf, hfid, hxf⟩
  · have hxr : x = r := eq_of_mem_of_id hid h1 hr hxid
    have h2 : g r ∈ updateById r._id g l := mem_updateById_self g hid hr
    have hid3 : ((updateById r._id g l).map (fun f => f._id)).Nodup := by
      rw [map_updateById (fun f => f._id) _ g hg]; exact hid
    exact eq_of_mem_of_id hid3 hx h2 (by rw [hxid]; exact (hg r).symm)
  · rw [hxf, eq_of_mem_of_id hid hf hr hfid]

theorem updateById_other {l : List FileRecord} {id : Nat} {x : FileRecord}
    (g : FileRecord → FileRecord) (hg : ∀ f, (g f)._id = f._id)
    (hx : x ∈ updateById id g l) (hxid : x._id ≠ id) : x ∈ l := by
  rcases mem_updateById hx with h1 | ⟨f, _, hfid, hxf⟩
  · exact h1
  · exact absurd (by rw [hxf, hg, hfid]) hxid

theorem updateById_fixed (id : Nat) (g : FileRecord → FileRecord) (l : List FileRecord)
    (h : ∀ f ∈ l, f._id = id → g f = f) : updateById id g l = l := by
  induction l with
  | nil => rfl
  | cons f fs ih =>
    unfold updateById
    split
    · rename_i hf
      rw [h f (List.mem_cons_self _ _) hf]
    · rw [ih (fun x hx => h x (List.mem_cons_of_mem _ hx))]

theorem updateById_twice (id : Nat) (g1 g2 : FileRecord → FileRecord)
    (hg : ∀ f, (g1 f)._id = f._id) (l : List FileRecord) :
    updateById id g2 (updateById id g1 l) = updateById id (fun f => g2 (g1 f)) l := by
  induction l with
  | nil => rfl
  | cons f fs ih =>
    by_cases hf : f._id = id
    · have h1 : (g1 f)._id = id := by rw [hg, hf]
      simp only [updateById, hf, h1, if_true]
    · simp only [updateById, hf, if_false, ih]

theorem removeById_not_mem {l : List FileRecord} {r : FileRecord}
    (hid : (l.map (fun f => f._id)).Nodup) : r ∉ removeById r._id l :=
  fun h => removeById_not_mem_id hid r h rfl

theorem mem_removeById_of_ne {l : List FileRecord} {id : Nat} {x : FileRecord}
    (hx : x ∈ l) (hne : x._id ≠ id) : x ∈ removeById id l := by
  induction l with
  | nil => simp at hx
  | cons f fs ih =>
    unfold removeById
    split
    · rename_i hf
      rcases List.mem_cons.mp hx with h1 | h1
      · exact absurd (by rw [h1]; exact hf) hne
      · exact h1
    · rcases List.mem_cons.mp hx with h1 | h1
      · rw [h1]; exact List.mem_cons_self _ _
      · exact List.mem_cons_of_mem _ (ih h1)

/-! ## Claims -/

/-- C1, counterexample. In a well-formed store where the document of user 1 has its blob, a
permanent delete whose unlink goes through and whose document delete fails answers 500,
keeps the document and leaves no blob under its storage key: blob presence is lost after
one request. -/
theorem blob_presence_lost_by_failed_delete :
    WellFormed sampleStore ∧ BlobPresent sampleStore
      ∧ Request.isMutation (.permanentDelete 1 "u1-a.txt") = true
      ∧ (permanentDelete { sampleEnv with deleteOk := false } sampleStore 1
          "u1-a.txt").response.status = 500
      ∧ sampleFile ∈ (run (fun _ _ => false) sampleStore
          [({ sampleEnv with deleteOk := false }, .permanentDelete 1 "u1-a.txt")]).files
      ∧ ¬ BlobPresent (run (fun _ _ => false) sampleStore
          [({ sampleEnv with deleteOk := false }, .permanentDelete 1 "u1-a.txt")]) := by
  decide

/-- C1, amended. From a store where every document has a blob under its storage key, the
`_id`s are distinct, and the stored keys and the keys generated along the run are pairwise
distinct, every document still has its blob after any sequence of requests, whatever store
calls fail, as long as no permanent delete has its document delete fail after its unlink
went through. -/
theorem blob_presence_run (rx : String → String → Bool) (s : Store)
    (tr : List (Env × Request)) (hb : BlobPresent s)
    (hid : (s.files.map (fun f => f._id)).Nodup)
    (hk : (tr.filterMap generatedKey ++ s.files.map (fun f => f.filename)).Nodup)
    (ht : ∀ er ∈ tr, tornDelete er = false) :
    ∀ f ∈ (run rx s tr).files,
      pathExists (run rx s tr).disk (pathJoin uploadsDir f.filename) = true :=
  run_preserves rx tr s hb hid hk ht

/-- C1, witness of the amended claim on `sampleStore` and `sampleTrace`. -/
theorem blob_presence_run_witness :
    BlobPresent sampleStore
      ∧ (run (fun _ _ => false) sampleStore sampleTrace).files.length = 1
      ∧ ∀ f ∈ (run (fun _ _ => false) sampleStore sampleTrace).files,
          pathExists (run (fun _ _ => false) sampleStore sampleTrace).disk
            (pathJoin uploadsDir f.filename) = true :=
  ⟨by decide, by decide,
   blob_presence_run (fun _ _ => false) sampleStore sampleTrace (by decide) (by decide)
     (by decide) (by decide)⟩

theorem findOne_none_of_forall {q : FileRecord → Bool} {l : List FileRecord}
    (h : ∀ f ∈ l, q f = false) : findOne q l = none := by
  unfold findOne
  rw [List.find?_eq_none]
  intro f hf
  rw [h f hf]
  simp

/-- C2. Let no record with key `k` be in `s0`. If every record of `s` under `k` belongs to
another owner than the requester `a`, then download, permanent delete and info answer 404
'File not found', the answer they give on `s0`, and leave both stores as they were. Move to
trash does the same when every record under `k` is another owner's or already trashed, and
restore (with its 404 'File not found in trash') when every record under `k` is another
owner's or not trashed. -/
theorem existence_not_leaked (env env0 : Env) (s s0 : Store) (a : Nat) (k : String)
    (hno : ∀ r ∈ s0.files, r.filename ≠ k) :
    ((∀ r ∈ s.files, r.filename = k → r.uploadedBy ≠ a) →
        (download s a k = ⟨s, ⟨404, .error "File not found"⟩, []⟩
          ∧ (download s a k).response = (download s0 a k).response)
        ∧ (permanentDelete env s a k = ⟨s, ⟨404, .error "File not found"⟩, []⟩
          ∧ (permanentDelete env s a k).response = (permanentDelete env0 s0 a k).response)
        ∧ (info s a k = ⟨s, ⟨404, .error "File not found"⟩, []⟩
          ∧ (info s a k).response = (info s0 a k).response))
    ∧ ((∀ r ∈ s.files, r.filename = k → r.uploadedBy ≠ a ∨ r.deleted = true) →
        moveToTrash env s a k = ⟨s, ⟨404, .error "File not found"⟩, []⟩
          ∧ (moveToTrash env s a k).response = (moveToTrash env0 s0 a k).response)
    ∧ ((∀ r ∈ s.files, r.filename = k → r.uploadedBy ≠ a ∨ r.deleted = false) →
        restore env s a k = ⟨s, ⟨404, .error "File not found in trash"⟩, []⟩
          ∧ (restore env s a k).response = (restore env0 s0 a k).response) := by
  have q0 : findOne (fun f => f.filename == k && f.uploadedBy == a) s0.files = none :=
    findOne_none_of_forall (fun f hf => by simp [hno f hf])
  have q0t : findOne (fun f => f.filename == k && f.uploadedBy == a && f.deleted != true)
      s0.files = none :=
    findOne_none_of_forall (fun f hf => by simp [hno f hf])
  have q0r : findOne (fun f => f.filename == k && f.uploadedBy == a && f.deleted == true)
      s0.files = none :=
    findOne_none_of_forall (fun f hf => by simp [hno f hf])
  refine ⟨?_, ?_, ?_⟩
  · intro h
    have q : findOne (fun f => f.filename == k && f.uploadedBy == a) s.files = none := by
      apply findOne_none_of_forall
      intro f hf
      by_cases hk : f.filename = k
      · simp [hk, h f hf hk]
      · simp [hk]
    refine ⟨⟨?_, ?_⟩, ⟨?_, ?_⟩, ⟨?_, ?_⟩⟩
    · simp only [download, q]
    · simp only [download, q, q0]
    · exact permanentDelete_notFound q
    · rw [permanentDelete_notFound q, permanentDelete_notFound q0]
    · simp only [info, q]
    · simp only [info, q, q0]
  · intro h
    have q : findOne (fun f => f.filename == k && f.uploadedBy == a && f.deleted != true)
        s.files = none := by
      apply findOne_none_of_forall
      intro f hf
      by_cases hk : f.filename = k
      · rcases h f hf hk with h1 | h1
        · simp [hk, h1]
        · simp [hk, h1]
      · simp [hk]
    exact ⟨moveToTrash_notFound q, by rw [moveToTrash_notFound q, moveToTrash_notFound q0t]⟩
  · intro h
    have q : findOne (fun f => f.filename == k && f.uploadedBy == a && f.deleted == true)
        s.files = none := by
      apply findOne_none_of_forall
      intro f hf
      by_cases hk : f.filename = k
      · rcases h f hf hk with h1 | h1
        · simp [hk, h1]
        · simp [hk, h1]
      · simp [hk]
    exact ⟨restore_notFound q, by rw [restore_notFound q, restore_notFound q0r]⟩

/-- C2, witness: user 2 asks for the key of user 1 (all five operations), and user 1 asks
to trash a trashed document and to restore an active one. -/
theorem existence_not_leaked_witness :
    (download sampleStore2 2 "u1-a.txt" = ⟨sampleStore2, ⟨404, .error "File not found"⟩, []⟩
      ∧ permanentDelete sampleEnv sampleStore2 2 "u1-a.txt"
          = ⟨sampleStore2, ⟨404, .error "File not found"⟩, []⟩
      ∧ info sampleStore2 2 "u1-a.txt" = ⟨sampleStore2, ⟨404, .error "File not found"⟩, []⟩
      ∧ moveToTrash sampleEnv sampleStore2 2 "u1-a.txt"
          = ⟨sampleStore2, ⟨404, .error "File not found"⟩, []⟩
      ∧ restore sampleEnv sampleStore2 2 "u1-a.txt"
          = ⟨sampleStore2, ⟨404, .error "File not found in trash"⟩, []⟩)
    ∧ moveToTrash sampleEnv sampleStore2 1 "u5-t.txt"
        = ⟨sampleStore2, ⟨404, .error "File not found"⟩, []⟩
    ∧ restore sampleEnv sampleStore2 1 "u1-a.txt"
        = ⟨sampleStore2, ⟨404, .error "File not found in trash"⟩, []⟩ := by
  have h := existence_not_leaked sampleEnv sampleEnv sampleStore2 ⟨[], []⟩ 2 "u1-a.txt"
    (by decide)
  have hx := h.1 (by decide)
  exact ⟨⟨hx.1.1, hx.2.1.1, hx.2.2.1, (h.2.1 (by decide)).1, (h.2.2 (by decide)).1⟩,
    ((existence_not_leaked sampleEnv sampleEnv sampleStore2 ⟨[], []⟩ 1 "u5-t.txt"
      (by decide)).2.1 (by decide)).1,
    ((existence_not_leaked sampleEnv sampleEnv sampleStore2 ⟨[], []⟩ 1 "u1-a.txt"
      (by decide)).2.2 (by decide)).1⟩

/-- C3. In a well-formed store, for an active record `r` of owner `o` (`deleted = false`,
`deletedAt = null`), when the two saves go through, move to trash answers 200, leaves `r`
marked deleted at the current time, restore answers 200, and the stores afterwards are the
stores before the two calls: `r` is there with every field as it was. -/
theorem trash_restore_round_trip (env1 env2 : Env) (s : Store) (r : FileRecord) (o : Nat)
    (hw : WellFormed s) (hr : r ∈ s.files) (ho : r.uploadedBy = o)
    (hd : r.deleted = false) (hda : r.deletedAt = none)
    (h1 : env1.saveOk = true) (h2 : env2.saveOk = true) :
    (moveToTrash env1 s o r.filename).response
        = ⟨200, .message "File moved to trash successfully"⟩
      ∧ { r with deleted := true, deletedAt := some env1.now }
          ∈ (moveToTrash env1 s o r.filename).store.files
      ∧ (restore env2 (moveToTrash env1 s o r.filename).store o r.filename).response
          = ⟨200, .message "File restored successfully"⟩
      ∧ (restore env2 (moveToTrash env1 s o r.filename).store o r.filename).store = s
      ∧ r ∈ (restore env2 (moveToTrash env1 s o r.filename).store o r.filename).store.files
      := by
  have hf1 : findOne (fun f => f.filename == r.filename && f.uploadedBy == o
      && f.deleted != true) s.files = some r :=
    findOne_eq_of_unique hw.2 hr (by simp [ho, hd]) (fun f hf => by
      simp only [Bool.and_eq_true, beq_iff_eq] at hf
      exact hf.1.1)
  rw [moveToTrash_saved hf1 h1]
  have hmem : markDeleted env1.now r ∈ updateById r._id (markDeleted env1.now) s.files :=
    mem_updateById_self _ hw.1 hr
  have hkeys : ((updateById r._id (markDeleted env1.now) s.files).map
      (fun f => f.filename)).Nodup := by
    rw [map_updateById (fun f => f.filename) _ (markDeleted env1.now) (fun _ => rfl)]
    exact hw.2
  have hf2 : findOne (fun f => f.filename == r.filename && f.uploadedBy == o
      && f.deleted == true) (updateById r._id (markDeleted env1.now) s.files)
      = some (markDeleted env1.now r) :=
    findOne_eq_of_unique hkeys hmem (by simp [markDeleted, ho]) (fun f hf => by
      simp only [Bool.and_eq_true, beq_iff_eq] at hf
      exact hf.1.1)
  have hback : updateById r._id unmarkDeleted
      (updateById r._id (markDeleted env1.now) s.files) = s.files := by
    rw [updateById_twice r._id (markDeleted env1.now) unmarkDeleted (fun _ => rfl)]
    apply updateById_fixed
    intro f hf hfid
    have : f = r := eq_of_mem_of_id hw.1 hf hr hfid
    subst this
    cases f
    simp only [markDeleted, unmarkDeleted] at *
    simp [hd, hda]
  have hres : restore env2
      { s with files := updateById r._id (markDeleted env1.now) s.files } o r.filename
      = ⟨s, ⟨200, .message "File restored successfully"⟩, []⟩ := by
    have hid : (markDeleted env1.now r)._id = r._id := rfl
    rw [restore_saved hf2 h2, hid]
    simp only [hback]
  refine ⟨rfl, hmem, ?_, ?_, ?_⟩
  · rw [hres]
  · rw [hres]
  · rw [hres]; exact hr

/-- C3, witness on `sampleStore` and `sampleFile`. -/
theorem trash_restore_round_trip_witness :
    (moveToTrash sampleEnv sampleStore 1 "u1-a.txt").response.status = 200
      ∧ (restore sampleEnv (moveToTrash sampleEnv sampleStore 1 "u1-a.txt").store 1
          "u1-a.txt").store = sampleStore :=
  ⟨by decide,
   (trash_restore_round_trip sampleEnv sampleEnv sampleStore sampleFile 1 (by decide)
     (by decide) rfl rfl rfl rfl rfl).2.2.2.1⟩

theorem upload_files (env : Env) (s : Store) (u : Nat) (payload : Option Payload) :
    (upload env s u payload).store.files = s.files
      ∨ ∃ p, payload = some p
          ∧ (upload env s u payload).store.files
              = s.files ++ [newFile env u (storedFile env p)] := by
  cases payload with
  | none => exact Or.inl rfl
  | some p =>
    by_cases hrej : p.bytes.length > fileSizeLimit ∨ env.writeOk = false
    · rw [upload_rejected hrej]; exact Or.inl rfl
    · simp only [not_or, Bool.not_eq_false] at hrej
      cases hsave : saveNew env.saveOk s.files (newFile env u (storedFile env p)) with
      | some files =>
        rw [upload_saved hrej.1 hrej.2 hsave]
        exact Or.inr ⟨p, rfl, (saveNew_some hsave).2.2⟩
      | none =>
        rw [upload_compensated hrej.1 hrej.2 hsave]
        split <;> exact Or.inl rfl

theorem step_files (rx : String → String → Bool) (env : Env) (s : Store) (req : Request)
    (x : FileRecord) (hx : x ∈ (step rx env s req).store.files) :
    x ∈ s.files ∨ (∃ u rf, x = newFile env u rf)
      ∨ (∃ f, x = markDeleted env.now f) ∨ (∃ f, x = unmarkDeleted f) := by
  cases req with
  | upload u payload =>
    simp only [step] at hx
    rcases upload_files env s u payload with h | ⟨p, -, h⟩
    · rw [h] at hx; exact Or.inl hx
    · rw [h] at hx
      rcases List.mem_append.mp hx with h1 | h1
      · exact Or.inl h1
      · exact Or.inr (Or.inl ⟨u, storedFile env p, List.mem_singleton.mp h1⟩)
  | list u q =>
    have hs : (step rx env s (.list u q)).store = s := by
      unfold step list
      simp only
      split <;> rfl
    rw [hs] at hx; exact Or.inl hx
  | download u k =>
    have hs : (step rx env s (.download u k)).store = s := by
      unfold step download
      simp only
      split
      · rfl
      · split <;> rfl
    rw [hs] at hx; exact Or.inl hx
  | info u k =>
    have hs : (step rx env s (.info u k)).store = s := by
      unfold step info
      simp only
      split <;> rfl
    rw [hs] at hx; exact Or.inl hx
  | moveToTrash u k =>
    simp only [step] at hx
    cases h : findOne (fun f => f.filename == k && f.uploadedBy == u && f.deleted != true)
        s.files with
    | none => rw [moveToTrash_notFound h] at hx; exact Or.inl hx
    | some file =>
      cases hs : env.saveOk with
      | false => rw [moveToTrash_fault h hs] at hx; exact Or.inl hx
      | true =>
        rw [moveToTrash_saved h hs] at hx
        rcases mem_updateById hx with h1 | ⟨f, _, _, hf⟩
        · exact Or.inl h1
        · exact Or.inr (Or.inr (Or.inl ⟨f, hf⟩))
  | restore u k =>
    simp only [step] at hx
    cases h : findOne (fun f => f.filename == k && f.uploadedBy == u && f.deleted == true)
        s.files with
    | none => rw [restore_notFound h] at hx; exact Or.inl hx
    | some file =>
      cases hs : env.saveOk with
      | false => rw [restore_fault h hs] at hx; exact Or.inl hx
      | true =>
        rw [restore_saved h hs] at hx
        rcases mem_updateById hx with h1 | ⟨f, _, _, hf⟩
        · exact Or.inl h1
        · exact Or.inr (Or.inr (Or.inr ⟨f, hf⟩))
  | permanentDelete u k =>
    simp only [step] at hx
    exact Or.inl ((permanentDelete_files_sublist env s u k).subset hx)

/-- C4. Every record that an upload adds to the collection has `deleted = false` and
`deletedAt = null`; and if `deleted = true` iff `deletedAt` is not null holds for all
records before a request (upload, list, download, move to trash, restore, permanent delete
or info, whatever store calls fail), it holds for all records after it. -/
theorem deleted_consistent_preserved (rx : String → String → Bool) (env : Env) (s : Store)
    (req : Request) (h : ∀ f ∈ s.files, DeletedConsistent f) :
    (∀ u payload, ∀ f ∈ (upload env s u payload).store.files, f ∉ s.files →
        f.deleted = false ∧ f.deletedAt = none)
      ∧ ∀ f ∈ (step rx env s req).store.files, f.deleted = true ↔ f.deletedAt ≠ none := by
  constructor
  · intro u payload f hf hnot
    rcases upload_files env s u payload with h1 | ⟨p, -, h1⟩
    · rw [h1] at hf; exact absurd hf hnot
    · rw [h1] at hf
      rcases List.mem_append.mp hf with h2 | h2
      · exact absurd h2 hnot
      · rw [List.mem_singleton.mp h2]; exact ⟨rfl, rfl⟩
  · intro f hf
    rcases step_files rx env s req f hf with h1 | ⟨u, rf, h1⟩ | ⟨g, h1⟩ | ⟨g, h1⟩
    · exact h f h1
    · rw [h1]; simp [newFile]
    · rw [h1]; simp [markDeleted]
    · rw [h1]; simp [unmarkDeleted]

/-- C4, witness: a move to trash on `sampleStore2`. -/
theorem deleted_consistent_preserved_witness :
    (∀ f ∈ sampleStore2.files, DeletedConsistent f)
      ∧ ∀ f ∈ (step (fun _ _ => false) sampleEnv sampleStore2
          (.moveToTrash 1 "u1-a.txt")).store.files, f.deleted = true ↔ f.deletedAt ≠ none :=
  ⟨by decide,
   (deleted_consistent_preserved (fun _ _ => false) sampleEnv sampleStore2
     (.moveToTrash 1 "u1-a.txt") (by decide)).2⟩

/-- C5, counterexample. The collection `sampleStore2` holds the active record of user 1
under `u1-a.txt`; when the save of the handler is rejected, move to trash answers neither
200 nor 404 but 500 'Server error during file deletion', and the record is as before. -/
theorem moveToTrash_save_rejected :
    sampleFile ∈ sampleStore2.files ∧ sampleFile.filename = "u1-a.txt"
      ∧ sampleFile.uploadedBy = 1 ∧ sampleFile.deleted ≠ true
      ∧ moveToTrash { sampleEnv with saveOk := false } sampleStore2 1 "u1-a.txt"
          = ⟨sampleStore2, ⟨500, .error "Server error during file deletion"⟩,
             ["Soft delete error:"]⟩ := by
  decide

/-- C5, amended. Move to trash of `(k, o)` answers 200 exactly when the collection holds a
record with filename `k`, owner `o` and `deleted` not true and the save goes through; it
answers 404 'File not found', changing nothing, exactly when there is no such record; when
there is one and the save is rejected it answers 500 'Server error during file deletion'
and changes nothing. In a well-formed store, on success that record, and no other, has
become the same record with `deleted = true` and `deletedAt` the current time. -/
theorem moveToTrash_spec (env : Env) (s : Store) (o : Nat) (k : String) :
    ((moveToTrash env s o k).response = ⟨200, .message "File moved to trash successfully"⟩
        ↔ (∃ r ∈ s.files, r.filename = k ∧ r.uploadedBy = o ∧ r.deleted ≠ true)
            ∧ env.saveOk = true)
      ∧ ((moveToTrash env s o k).response = ⟨404, .error "File not found"⟩
        ↔ ¬ ∃ r ∈ s.files, r.filename = k ∧ r.uploadedBy = o ∧ r.deleted ≠ true)
      ∧ ((¬ ∃ r ∈ s.files, r.filename = k ∧ r.uploadedBy = o ∧ r.deleted ≠ true) →
          moveToTrash env s o k = ⟨s, ⟨404, .error "File not found"⟩, []⟩)
      ∧ ((∃ r ∈ s.files, r.filename = k ∧ r.uploadedBy = o ∧ r.deleted ≠ true) →
          env.saveOk = false →
          moveToTrash env s o k
            = ⟨s, ⟨500, .error "Server error during file deletion"⟩, ["Soft delete error:"]⟩)
      ∧ (WellFormed s → env.saveOk = true →
          ∀ r ∈ s.files, r.filename = k → r.uploadedBy = o → r.deleted ≠ true →
            { r with deleted := true, deletedAt := some env.now }
                ∈ (moveToTrash env s o k).store.files
              ∧ (∀ f ∈ (moveToTrash env s o k).store.files, f._id = r._id →
                  f = { r with deleted := true, deletedAt := some env.now })
              ∧ (∀ f ∈ (moveToTrash env s o k).store.files, f._id ≠ r._id → f ∈ s.files)
              ∧ (moveToTrash env s o k).store.disk = s.disk) := by
  have hnone : (¬ ∃ r ∈ s.files, r.filename = k ∧ r.uploadedBy = o ∧ r.deleted ≠ true) →
      findOne (fun f => f.filename == k && f.uploadedBy == o && f.deleted != true) s.files
        = none := by
    intro hne
    apply findOne_none_of_forall
    intro f hf
    by_contra hq
    simp only [Bool.not_eq_false, Bool.and_eq_true, beq_iff_eq, bne_iff_ne] at hq
    exact hne ⟨f, hf, hq.1.1, hq.1.2, hq.2⟩
  have hfound : (∃ r ∈ s.files, r.filename = k ∧ r.uploadedBy = o ∧ r.deleted ≠ true) →
      ∃ file, findOne (fun f => f.filename == k && f.uploadedBy == o && f.deleted != true)
        s.files = some file := by
    rintro ⟨r, hr, hk, ho, hd⟩
    cases h : findOne (fun f => f.filename == k && f.uploadedBy == o && f.deleted != true)
        s.files with
    | none => exact absurd (findOne_none h r hr) (by simp [hk, ho, hd])
    | some file => exact ⟨file, rfl⟩
  refine ⟨⟨?_, ?_⟩, ⟨?_, ?_⟩, ?_, ?_, ?_⟩
  · intro hresp
    have hex : ∃ r ∈ s.files, r.filename = k ∧ r.uploadedBy = o ∧ r.deleted ≠ true := by
      by_contra hne
      rw [moveToTrash_notFound (hnone hne)] at hresp
      exact absurd (show (404 : Nat) = 200 from congrArg Response.status hresp) (by decide)
    refine ⟨hex, ?_⟩
    obtain ⟨file, hfile⟩ := hfound hex
    cases hs : env.saveOk with
    | true => rfl
    | false =>
      rw [moveToTrash_fault hfile hs] at hresp
      exact absurd (show (500 : Nat) = 200 from congrArg Response.status hresp) (by decide)
  · rintro ⟨hex, hs⟩
    obtain ⟨file, hfile⟩ := hfound hex
    rw [moveToTrash_saved hfile hs]
  · intro hresp
    intro hex
    obtain ⟨file, hfile⟩ := hfound hex
    cases hs : env.saveOk with
    | true =>
      rw [moveToTrash_saved hfile hs] at hresp
      exact absurd (show (200 : Nat) = 404 from congrArg Response.status hresp) (by decide)
    | false =>
      rw [moveToTrash_fault hfile hs] at hresp
      exact absurd (show (500 : Nat) = 404 from congrArg Response.status hresp) (by decide)
  · intro hne
    rw [moveToTrash_notFound (hnone hne)]
  · intro hne
    exact moveToTrash_notFound (hnone hne)
  · intro hex hs
    obtain ⟨file, hfile⟩ := hfound hex
    exact moveToTrash_fault hfile hs
  · intro hw hs r hr hk ho hd
    have hsome : findOne (fun f => f.filename == k && f.uploadedBy == o && f.deleted != true)
        s.files = some r :=
      findOne_eq_of_unique hw.2 hr (by simp [hk, ho, hd]) (fun f hf => by
        simp only [Bool.and_eq_true, beq_iff_eq] at hf
        rw [hf.1.1, hk])
    rw [moveToTrash_saved hsome hs]
    refine ⟨mem_updateById_self _ hw.1 hr, ?_, ?_, rfl⟩
    · intro f hf hfid
      exact updateById_of_id (markDeleted env.now) (fun _ => rfl) hw.1 hr hf hfid
    · intro f hf hfid
      exact updateById_other (markDeleted env.now) (fun _ => rfl) hf hfid

/-- C5, witness on `sampleStore2`: the active record of user 1 is trashed at time 20 when
the save goes through, and the answer is 500 when it is rejected. -/
theorem moveToTrash_spec_witness :
    WellFormed sampleStore2
      ∧ (moveToTrash sampleEnv sampleStore2 1 "u1-a.txt").response
          = ⟨200, .message "File moved to trash successfully"⟩
      ∧ { sampleFile with deleted := true, deletedAt := some 20 }
          ∈ (moveToTrash sampleEnv sampleStore2 1 "u1-a.txt").store.files
      ∧ moveToTrash { sampleEnv with saveOk := false } sampleStore2 1 "u1-a.txt"
          = ⟨sampleStore2, ⟨500, .error "Server error during file deletion"⟩,
             ["Soft delete error:"]⟩ :=
  ⟨by decide,
   (moveToTrash_spec sampleEnv sampleStore2 1 "u1-a.txt").1.mpr
     ⟨⟨sampleFile, by decide, rfl, rfl, by decide⟩, rfl⟩,
   ((moveToTrash_spec sampleEnv sampleStore2 1 "u1-a.txt").2.2.2.2 (by decide) rfl
     sampleFile (by decide) rfl rfl (by decide)).1,
   (moveToTrash_spec { sampleEnv with saveOk := false } sampleStore2 1 "u1-a.txt").2.2.2.1
     ⟨sampleFile, by decide, rfl, rfl, by decide⟩ rfl⟩

/-- C6, counterexample. The collection `sampleStore2` holds the trashed record of user 1
under `u5-t.txt`; when the save of the handler is rejected, restore answers neither 200 nor
404 but 500 'Server error during file restoration', and the record is as before. -/
theorem restore_save_rejected :
    sampleTrashed ∈ sampleStore2.files ∧ sampleTrashed.filename = "u5-t.txt"
      ∧ sampleTrashed.uploadedBy = 1 ∧ sampleTrashed.deleted = true
      ∧ restore { sampleEnv with saveOk := false } sampleStore2 1 "u5-t.txt"
          = ⟨sampleStore2, ⟨500, .error "Server error during file restoration"⟩,
             ["Restore error:"]⟩ := by
  decide

/-- C6, amended. Restore of `(k, o)` answers 200 exactly when the collection holds a record
with filename `k`, owner `o` and `deleted = true` and the save goes through; it answers 404
'File not found in trash', changing nothing, exactly when there is no such record; when
there is one and the save is rejected it answers 500 'Server error during file
restoration' and changes nothing. In a well-formed store, on success that record, and no
other, has become the same record with `deleted = false` and `deletedAt = null`. -/
theorem restore_spec (env : Env) (s : Store) (o : Nat) (k : String) :
    ((restore env s o k).response = ⟨200, .message "File restored successfully"⟩
        ↔ (∃ r ∈ s.files, r.filename = k ∧ r.uploadedBy = o ∧ r.deleted = true)
            ∧ env.saveOk = true)
      ∧ ((restore env s o k).response = ⟨404, .error "File not found in trash"⟩
        ↔ ¬ ∃ r ∈ s.files, r.filename = k ∧ r.uploadedBy = o ∧ r.deleted = true)
      ∧ ((¬ ∃ r ∈ s.files, r.filename = k ∧ r.uploadedBy = o ∧ r.deleted = true) →
          restore env s o k = ⟨s, ⟨404, .error "File not found in trash"⟩, []⟩)
      ∧ ((∃ r ∈ s.files, r.filename = k ∧ r.uploadedBy = o ∧ r.deleted = true) →
          env.saveOk = false →
          restore env s o k
            = ⟨s, ⟨500, .error "Server error during file restoration"⟩, ["Restore error:"]⟩)
      ∧ (WellFormed s → env.saveOk = true →
          ∀ r ∈ s.files, r.filename = k → r.uploadedBy = o → r.deleted = true →
            { r with deleted := false, deletedAt := none } ∈ (restore env s o k).store.files
              ∧ (∀ f ∈ (restore env s o k).store.files, f._id = r._id →
                  f = { r with deleted := false, deletedAt := none })
              ∧ (∀ f ∈ (restore env s o k).store.files, f._id ≠ r._id → f ∈ s.files)
              ∧ (restore env s o k).store.disk = s.disk) := by
  have hnone : (¬ ∃ r ∈ s.files, r.filename = k ∧ r.uploadedBy = o ∧ r.deleted = true) →
      findOne (fun f => f.filename == k && f.uploadedBy == o && f.deleted == true) s.files
        = none := by
    intro hne
    apply findOne_none_of_forall
    intro f hf
    by_contra hq
    simp only [Bool.not_eq_false, Bool.and_eq_true, beq_iff_eq] at hq
    exact hne ⟨f, hf, hq.1.1, hq.1.2, hq.2⟩
  have hfound : (∃ r ∈ s.files, r.filename = k ∧ r.uploadedBy = o ∧ r.deleted = true) →
      ∃ file, findOne (fun f => f.filename == k && f.uploadedBy == o && f.deleted == true)
        s.files = some file := by
    rintro ⟨r, hr, hk, ho, hd⟩
    cases h : findOne (fun f => f.filename == k && f.uploadedBy == o && f.deleted == true)
        s.files with
    | none => exact absurd (findOne_none h r hr) (by simp [hk, ho, hd])
    | some file => exact ⟨file, rfl⟩
  refine ⟨⟨?_, ?_⟩, ⟨?_, ?_⟩, ?_, ?_, ?_⟩
  · intro hresp
    have hex : ∃ r ∈ s.files, r.filename = k ∧ r.uploadedBy = o ∧ r.deleted = true := by
      by_contra hne
      rw [restore_notFound (hnone hne)] at hresp
      exact absurd (show (404 : Nat) = 200 from congrArg Response.status hresp) (by decide)
    refine ⟨hex, ?_⟩
    obtain ⟨file, hfile⟩ := hfound hex
    cases hs : env.saveOk with
    | true => rfl
    | false =>
      rw [restore_fault hfile hs] at hresp
      exact absurd (show (500 : Nat) = 200 from congrArg Response.status hresp) (by decide)
  · rintro ⟨hex, hs⟩
    obtain ⟨file, hfile⟩ := hfound hex
    rw [restore_saved hfile hs]
  · intro hresp
    intro hex
    obtain ⟨file, hfile⟩ := hfound hex
    cases hs : env.saveOk with
    | true =>
      rw [restore_saved hfile hs] at hresp
      exact absurd (show (200 : Nat) = 404 from congrArg Response.status hresp) (by decide)
    | false =>
      rw [restore_fault hfile hs] at hresp
      exact absurd (show (500 : Nat) = 404 from congrArg Response.status hresp) (by decide)
  · intro hne
    rw [restore_notFound (hnone hne)]
  · intro hne
    exact restore_notFound (hnone hne)
  · intro hex hs
    obtain ⟨file, hfile⟩ := hfound hex
    exact restore_fault hfile hs
  · intro hw hs r hr hk ho hd
    have hsome : findOne (fun f => f.filename == k && f.uploadedBy == o && f.deleted == true)
        s.files = some r :=
      findOne_eq_of_unique hw.2 hr (by simp [hk, ho, hd]) (fun f hf => by
        simp only [Bool.and_eq_true, beq_iff_eq] at hf
        rw [hf.1.1, hk])
    rw [restore_saved hsome hs]
    refine ⟨mem_updateById_self _ hw.1 hr, ?_, ?_, rfl⟩
    · intro f hf hfid
      exact updateById_of_id unmarkDeleted (fun _ => rfl) hw.1 hr hf hfid
    · intro f hf hfid
      exact updateById_other unmarkDeleted (fun _ => rfl) hf hfid

/-- C6, witness on `sampleStore2`: the trashed record of user 1 is restored when the save
goes through, and the answer is 500 when it is rejected. -/
theorem restore_spec_witness :
    WellFormed sampleStore2
      ∧ (restore sampleEnv sampleStore2 1 "u5-t.txt").response
          = ⟨200, .message "File restored successfully"⟩
      ∧ { sampleTrashed with deleted := false, deletedAt := none }
          ∈ (restore sampleEnv sampleStore2 1 "u5-t.txt").store.files
      ∧ restore { sampleEnv with saveOk := false } sampleStore2 1 "u5-t.txt"
          = ⟨sampleStore2, ⟨500, .error "Server error during file restoration"⟩,
             ["Restore error:"]⟩ :=
  ⟨by decide,
   (restore_spec sampleEnv sampleStore2 1 "u5-t.txt").1.mpr
     ⟨⟨sampleTrashed, by decide, rfl, rfl, rfl⟩, rfl⟩,
   ((restore_spec sampleEnv sampleStore2 1 "u5-t.txt").2.2.2.2 (by decide) rfl
     sampleTrashed (by decide) rfl rfl rfl).1,
   (restore_spec { sampleEnv with saveOk := false } sampleStore2 1 "u5-t.txt").2.2.2.1
     ⟨sampleTrashed, by decide, rfl, rfl, rfl⟩ rfl⟩

theorem findOne_owned_of_unique {s : Store} {r : FileRecord} {o : Nat} {k : String}
    (hw : WellFormed s) (hr : r ∈ s.files) (hk : r.filename = k) (ho : r.uploadedBy = o) :
    findOne (fun f => f.filename == k && f.uploadedBy == o) s.files = some r :=
  findOne_eq_of_unique hw.2 hr (by simp [hk, ho]) (fun f hf => by
    simp only [Bool.and_eq_true, beq_iff_eq] at hf
    rw [hf.1, hk])

theorem no_key_after_remove {s : Store} {r : FileRecord} (hw : WellFormed s)
    (hr : r ∈ s.files) : ∀ f ∈ removeById r._id s.files, f.filename ≠ r.filename := by
  intro f hf e
  have hfs : f ∈ s.files := (removeById_sublist _ _).subset hf
  have : f = r := eq_of_mem_of_key hw.2 hfs hr e
  exact removeById_not_mem_id hw.1 f hf (by rw [this])

/-- C7, counterexample. The active record of user 1 in `sampleStore` has its blob; a
permanent delete whose unlink call fails in the storage layer answers 200 'File permanently
deleted successfully' and removes the record, and the blob is still stored under the
key. -/
theorem purge_success_with_blob_left :
    WellFormed sampleStore ∧ sampleFile ∈ sampleStore.files
      ∧ pathExists sampleStore.disk (pathJoin uploadsDir "u1-a.txt") = true
      ∧ (permanentDelete { sampleEnv with unlinkOk := false } sampleStore 1
          "u1-a.txt").response = ⟨200, .message "File permanently deleted successfully"⟩
      ∧ (permanentDelete { sampleEnv with unlinkOk := false } sampleStore 1
          "u1-a.txt").store.files = []
      ∧ pathExists (permanentDelete { sampleEnv with unlinkOk := false } sampleStore 1
          "u1-a.txt").store.disk (pathJoin uploadsDir "u1-a.txt") = true := by
  decide

/-- C7, amended. In a well-formed store, for a record of owner `o` with key `k`, active or
trashed, whose blob is present: after a permanent delete of `(k, o)` that answers 200 the
collection holds no record with key `k`, a following info of `(k, o)` answers 404 'File not
found', and the blob under `k` is gone if the unlink call went through; if the unlink call
failed the uploads directory is as before. -/
theorem purge_postcondition (env : Env) (s : Store) (o : Nat) (k : String) (r : FileRecord)
    (hw : WellFormed s) (hr : r ∈ s.files) (hk : r.filename = k) (ho : r.uploadedBy = o)
    (hblob : pathExists s.disk (pathJoin uploadsDir k) = true)
    (hresp : (permanentDelete env s o k).response
      = ⟨200, .message "File permanently deleted successfully"⟩) :
    (∀ f ∈ (permanentDelete env s o k).store.files, f.filename ≠ k)
      ∧ info (permanentDelete env s o k).store o k
          = ⟨(permanentDelete env s o k).store, ⟨404, .error "File not found"⟩, []⟩
      ∧ (env.unlinkOk = true →
          pathExists (permanentDelete env s o k).store.disk (pathJoin uploadsDir k) = false)
      ∧ (env.unlinkOk = false → (permanentDelete env s o k).store.disk = s.disk) := by
  have hfind := findOne_owned_of_unique hw hr hk ho
  have hd : env.deleteOk = true := by
    cases hd : env.deleteOk with
    | true => rfl
    | false =>
      rw [permanentDelete_fault hfind hd] at hresp
      exact absurd (show (500 : Nat) = 200 from congrArg Response.status hresp) (by decide)
  rw [permanentDelete_deleted hfind hd]
  have hnokey : ∀ f ∈ removeById r._id s.files, f.filename ≠ k := by
    intro f hf
    rw [← hk]
    exact no_key_after_remove hw hr f hf
  refine ⟨hnokey, ?_, ?_, ?_⟩
  · have q : findOne (fun f => f.filename == k && f.uploadedBy == o)
        (removeById r._id s.files) = none :=
      findOne_none_of_forall (fun f hf => by simp [hnokey f hf])
    simp only [info, q]
  · intro hu
    simp only [unlink, hu, hk, hblob, Bool.and_self, if_true, Option.getD_some]
    exact pathExists_filter_self _ _
  · intro hu
    simp only [unlink, hu, Bool.false_and, Bool.false_eq_true, if_false, Option.getD_none]

/-- C7, witness of the amended claim on `sampleStore`, with every store call going
through. -/
theorem purge_postcondition_witness :
    (permanentDelete sampleEnv sampleStore 1 "u1-a.txt").response
        = ⟨200, .message "File permanently deleted successfully"⟩
      ∧ (∀ f ∈ (permanentDelete sampleEnv sampleStore 1 "u1-a.txt").store.files,
          f.filename ≠ "u1-a.txt")
      ∧ pathExists (permanentDelete sampleEnv sampleStore 1 "u1-a.txt").store.disk
          (pathJoin uploadsDir "u1-a.txt") = false :=
  ⟨by decide,
   (purge_postcondition sampleEnv sampleStore 1 "u1-a.txt" sampleFile (by decide)
     (by decide) rfl rfl (by decide) (by decide)).1,
   (purge_postcondition sampleEnv sampleStore 1 "u1-a.txt" sampleFile (by decide)
     (by decide) rfl rfl (by decide) (by decide)).2.2.1 rfl⟩

/-- C8. In a well-formed store holding a record `r` with key `k` and owner `o`, when the
unlink of its blob fails (storage-layer failure, or no blob under the key) and the record
delete goes through, permanent delete answers 200 'File permanently deleted successfully',
which is the answer of every permanent delete that finds a record and deletes it, so also
of one whose unlink succeeds; `r` is removed and every other record kept, the uploads
directory is untouched and the failure is logged. -/
theorem permanentDelete_tolerates_unlink_failure (env env2 : Env) (s s2 : Store) (o : Nat)
    (k : String) (r r2 : FileRecord)
    (hw : WellFormed s) (hr : r ∈ s.files) (hk : r.filename = k) (ho : r.uploadedBy = o)
    (hfail : env.unlinkOk = false ∨ pathExists s.disk (pathJoin uploadsDir k) = false)
    (hdel : env.deleteOk = true)
    (hfind2 : findOne (fun f => f.filename == k && f.uploadedBy == o) s2.files = some r2)
    (hdel2 : env2.deleteOk = true) :
    (permanentDelete env s o k).response
        = ⟨200, .message "File permanently deleted successfully"⟩
      ∧ (permanentDelete env s o k).response = (permanentDelete env2 s2 o k).response
      ∧ r ∉ (permanentDelete env s o k).store.files
      ∧ (∀ f ∈ s.files, f ≠ r → f ∈ (permanentDelete env s o k).store.files)
      ∧ (permanentDelete env s o k).store.disk = s.disk
      ∧ (permanentDelete env s o k).log = ["Error deleting file from disk:"] := by
  have hfind := findOne_owned_of_unique hw hr hk ho
  have hu : unlink env.unlinkOk s.disk (pathJoin uploadsDir r.filename) = none := by
    rw [hk]
    unfold unlink
    rcases hfail with h | h
    · simp [h]
    · simp [h]
  rw [permanentDelete_deleted hfind hdel, permanentDelete_deleted hfind2 hdel2, hu]
  refine ⟨rfl, rfl, removeById_not_mem hw.1, ?_, rfl, rfl⟩
  intro f hf hne
  exact mem_removeById_of_ne hf (fun e => hne (eq_of_mem_of_id hw.1 hf hr e))

/-- C8, witness: on `sampleStore2` the unlink of the blob of `sampleFile` fails in the
storage layer; the comparison run is the same request with every call going through. -/
theorem permanentDelete_tolerates_unlink_failure_witness :
    (permanentDelete { sampleEnv with unlinkOk := false } sampleStore2 1 "u1-a.txt").response
        = ⟨200, .message "File permanently deleted successfully"⟩
      ∧ (permanentDelete { sampleEnv with unlinkOk := false } sampleStore2 1
          "u1-a.txt").store = { files := [sampleTrashed], disk := sampleStore2.disk }
      ∧ sampleFile ∉ (permanentDelete { sampleEnv with unlinkOk := false } sampleStore2 1
          "u1-a.txt").store.files :=
  ⟨(permanentDelete_tolerates_unlink_failure { sampleEnv with unlinkOk := false } sampleEnv
      sampleStore2 sampleStore2 1 "u1-a.txt" sampleFile sampleFile (by decide) (by decide)
      rfl rfl (Or.inl rfl) rfl (by decide) rfl).1,
   by decide,
   (permanentDelete_tolerates_unlink_failure { sampleEnv with unlinkOk := false } sampleEnv
      sampleStore2 sampleStore2 1 "u1-a.txt" sampleFile sampleFile (by decide) (by decide)
      rfl rfl (Or.inl rfl) rfl (by decide) rfl).2.2.1⟩

/-- C9. In a well-formed store, if a move to trash, a restore or a permanent delete of
`(k, o)` answers 200, the same request made again right after it, whatever store calls
would fail, answers 404 (with no log line) and leaves both stores exactly as the first
call left them. -/
theorem retry_not_found (env1 env2 : Env) (s : Store) (o : Nat) (k : String)
    (hw : WellFormed s) :
    ((moveToTrash env1 s o k).response.status = 200 →
        moveToTrash env2 (moveToTrash env1 s o k).store o k
          = ⟨(moveToTrash env1 s o k).store, ⟨404, .error "File not found"⟩, []⟩)
      ∧ ((restore env1 s o k).response.status = 200 →
        restore env2 (restore env1 s o k).store o k
          = ⟨(restore env1 s o k).store, ⟨404, .error "File not found in trash"⟩, []⟩)
      ∧ ((permanentDelete env1 s o k).response.status = 200 →
        permanentDelete env2 (permanentDelete env1 s o k).store o k
          = ⟨(permanentDelete env1 s o k).store, ⟨404, .error "File not found"⟩, []⟩) := by
  refine ⟨?_, ?_, ?_⟩
  · intro h200
    cases h : findOne (fun f => f.filename == k && f.uploadedBy == o && f.deleted != true)
        s.files with
    | none =>
      rw [moveToTrash_notFound h] at h200
      exact absurd (show (404 : Nat) = 200 from h200) (by decide)
    | some r =>
      cases hs : env1.saveOk with
      | false =>
        rw [moveToTrash_fault h hs] at h200
        exact absurd (show (500 : Nat) = 200 from h200) (by decide)
      | true =>
        rw [moveToTrash_saved h hs]
        apply moveToTrash_notFound
        apply findOne_none_of_forall
        intro f hf
        obtain ⟨hr, hq⟩ := findOne_some h
        simp only [Bool.and_eq_true, beq_iff_eq] at hq
        have hkeys : ((updateById r._id (markDeleted env1.now) s.files).map
            (fun f => f.filename)).Nodup := by
          rw [map_updateById (fun f => f.filename) _ (markDeleted env1.now) (fun _ => rfl)]
          exact hw.2
        have hmem : markDeleted env1.now r
            ∈ updateById r._id (markDeleted env1.now) s.files :=
          mem_updateById_self _ hw.1 hr
        by_cases hfk : f.filename = k
        · have : f = markDeleted env1.now r :=
            eq_of_mem_of_key hkeys hf hmem (by rw [hfk]; exact hq.1.1.symm)
          rw [this]
          simp [markDeleted]
        · simp [hfk]
  · intro h200
    cases h : findOne (fun f => f.filename == k && f.uploadedBy == o && f.deleted == true)
        s.files with
    | none =>
      rw [restore_notFound h] at h200
      exact absurd (show (404 : Nat) = 200 from h200) (by decide)
    | some r =>
      cases hs : env1.saveOk with
      | false =>
        rw [restore_fault h hs] at h200
        exact absurd (show (500 : Nat) = 200 from h200) (by decide)
      | true =>
        rw [restore_saved h hs]
        apply restore_notFound
        apply findOne_none_of_forall
        intro f hf
        obtain ⟨hr, hq⟩ := findOne_some h
        simp only [Bool.and_eq_true, beq_iff_eq] at hq
        have hkeys : ((updateById r._id unmarkDeleted s.files).map
            (fun f => f.filename)).Nodup := by
          rw [map_updateById (fun f => f.filename) _ unmarkDeleted (fun _ => rfl)]
          exact hw.2
        have hmem : unmarkDeleted r ∈ updateById r._id unmarkDeleted s.files :=
          mem_updateById_self _ hw.1 hr
        by_cases hfk : f.filename = k
        · have : f = unmarkDeleted r :=
            eq_of_mem_of_key hkeys hf hmem (by rw [hfk]; exact hq.1.1.symm)
          rw [this]
          simp [unmarkDeleted]
        · simp [hfk]
  · intro h200
    cases h : findOne (fun f => f.filename == k && f.uploadedBy == o) s.files with
    | none =>
      rw [permanentDelete_notFound h] at h200
      exact absurd (show (404 : Nat) = 200 from h200) (by decide)
    | some r =>
      cases hd : env1.deleteOk with
      | false =>
        rw [permanentDelete_fault h hd] at h200
        exact absurd (show (500 : Nat) = 200 from h200) (by decide)
      | true =>
        rw [permanentDelete_deleted h hd]
        apply permanentDelete_notFound
        apply findOne_none_of_forall
        intro f hf
        obtain ⟨hr, hq⟩ := findOne_some h
        simp only [Bool.and_eq_true, beq_iff_eq] at hq
        have hne : f.filename ≠ k := by
          rw [← hq.1]
          exact no_key_after_remove hw hr f hf
        simp [hne]

/-- C9, witness on `sampleStore2`: each of the three requests succeeds once and is then
repeated with every store call failing. -/
theorem retry_not_found_witness :
    (moveToTrash { sampleEnv with saveOk := false }
        (moveToTrash sampleEnv sampleStore2 1 "u1-a.txt").store 1 "u1-a.txt").response.status
        = 404
      ∧ (restore { sampleEnv with saveOk := false }
        (restore sampleEnv sampleStore2 1 "u5-t.txt").store 1 "u5-t.txt").response.status
        = 404
      ∧ (permanentDelete { sampleEnv with unlinkOk := false, deleteOk := false }
        (permanentDelete sampleEnv sampleStore2 1 "u1-a.txt").store 1
          "u1-a.txt").response.status = 404 :=
  ⟨congrArg (fun x => x.response.status)
     ((retry_not_found sampleEnv { sampleEnv with saveOk := false } sampleStore2 1
       "u1-a.txt" (by decide)).1 (by decide)),
   congrArg (fun x => x.response.status)
     ((retry_not_found sampleEnv { sampleEnv with saveOk := false } sampleStore2 1
       "u5-t.txt" (by decide)).2.1 (by decide)),
   congrArg (fun x => x.response.status)
     ((retry_not_found sampleEnv { sampleEnv with unlinkOk := false, deleteOk := false }
       sampleStore2 1 "u1-a.txt" (by decide)).2.2 (by decide))⟩

/-- C10. When multer has stored the payload (size within the limit, blob write through)
and the save of the new document fails, the upload answers 500 'Server error during file
upload', the same answer whether the cleanup unlink succeeds or fails; the collection is
as it was; the blob at the path of the uploaded file is gone if the unlink went through,
and if it failed the blob stays and the failure is logged. -/
theorem upload_compensation (env : Env) (s : Store) (u : Nat) (p : Payload)
    (hsize : p.bytes.length ≤ fileSizeLimit) (hwrite : env.writeOk = true)
    (hsave : saveNew env.saveOk s.files (newFile env u (storedFile env p)) = none) :
    (upload env s u (some p)).response = ⟨500, .error "Server error during file upload"⟩
      ∧ (upload { env with unlinkOk := !env.unlinkOk } s u (some p)).response
          = (upload env s u (some p)).response
      ∧ (upload env s u (some p)).store.files = s.files
      ∧ (env.unlinkOk = true →
          pathExists (upload env s u (some p)).store.disk (storedFile env p).path = false
            ∧ (upload env s u (some p)).log = ["Upload error:"])
      ∧ (env.unlinkOk = false →
          pathExists (upload env s u (some p)).store.disk (storedFile env p).path = true
            ∧ (upload env s u (some p)).log
                = ["Upload error:", "Error deleting uploaded file:"]) := by
  have hs : ¬ p.bytes.length > fileSizeLimit := Nat.not_lt.mpr hsize
  have h2 : upload { env with unlinkOk := !env.unlinkOk } s u (some p) = _ :=
    @upload_compensated { env with unlinkOk := !env.unlinkOk } s u p hs hwrite hsave
  rw [h2, upload_compensated hs hwrite hsave]
  cases hu : env.unlinkOk with
  | true =>
    refine ⟨rfl, rfl, rfl, ?_, ?_⟩
    · intro _
      exact ⟨pathExists_filter_self _ _, rfl⟩
    · intro h; exact absurd h (by decide)
  | false =>
    refine ⟨rfl, rfl, rfl, ?_, ?_⟩
    · intro h; exact absurd h (by decide)
    · intro _
      exact ⟨pathExists_writeFile_self _ _ _, rfl⟩

/-- C10, witness: an upload to `sampleStore` whose save fails, with the cleanup going
through. -/
theorem upload_compensation_witness :
    (upload { sampleEnv with saveOk := false } sampleStore 2
        (some ⟨"b.txt", "text/plain", [1]⟩)).response
        = ⟨500, .error "Server error during file upload"⟩
      ∧ (upload { sampleEnv with saveOk := false } sampleStore 2
        (some ⟨"b.txt", "text/plain", [1]⟩)).store = sampleStore :=
  ⟨(upload_compensation { sampleEnv with saveOk := false } sampleStore 2
      ⟨"b.txt", "text/plain", [1]⟩ (by decide) rfl (by decide)).1,
   by decide⟩

/-! ## Lemmas on the list handler -/

theorem list_entries (rx : String → String → Bool) (s : Store) (o : Nat) (q : ListQuery) :
    (list rx s o q).response.entries =
      if (q.page.getD 1 - 1) * q.limit.getD 20 < 0 then []
      else (applyLimit (q.limit.getD 20)
        (((s.files.filter (listFilter rx o (q.trash.getD "false") (q.search.getD ""))).insertionSort
          (fun a b => a.uploadedAt ≥ b.uploadedAt)).drop
            ((q.page.getD 1 - 1) * q.limit.getD 20).natAbs)).map toEntry := by
  unfold list
  simp only
  split <;> rfl

theorem list_pageInfo (rx : String → String → Bool) (s : Store) (o : Nat) (q : ListQuery) :
    (list rx s o q).response.pageInfo =
      if (q.page.getD 1 - 1) * q.limit.getD 20 < 0 then none
      else some
        { currentPage := q.page.getD 1,
          totalPages := ceilDiv
            (s.files.filter (listFilter rx o (q.trash.getD "false") (q.search.getD ""))).length
            (q.limit.getD 20),
          totalFiles :=
            (s.files.filter (listFilter rx o (q.trash.getD "false") (q.search.getD ""))).length,
          hasNextPage := decide (q.page.getD 1 * q.limit.getD 20
            < ((s.files.filter
                (listFilter rx o (q.trash.getD "false") (q.search.getD ""))).length : Int)),
          hasPrevPage := decide (q.page.getD 1 > 1) } := by
  unfold list
  simp only
  split <;> rfl

theorem list_status (rx : String → String → Bool) (s : Store) (o : Nat) (q : ListQuery) :
    (list rx s o q).response.status =
      if (q.page.getD 1 - 1) * q.limit.getD 20 < 0 then 500 else 200 := by
  unfold list
  simp only
  split <;> rfl

theorem mem_applyLimit {n : Int} {l : List FileRecord} {x : FileRecord}
    (h : x ∈ applyLimit n l) : x ∈ l := by
  unfold applyLimit at h
  split at h
  · exact h
  · exact List.mem_of_mem_take h

theorem mem_of_mem_list_entries {rx : String → String → Bool} {s : Store} {o : Nat}
    {q : ListQuery} {e : FileEntry} (h : e ∈ (list rx s o q).response.entries) :
    ∃ f ∈ s.files,
      listFilter rx o (q.trash.getD "false") (q.search.getD "") f = true ∧ toEntry f = e := by
  rw [list_entries] at h
  split at h
  · simp at h
  · obtain ⟨f, hf, hfe⟩ := List.mem_map.mp h
    have h1 := List.mem_of_mem_drop (mem_applyLimit hf)
    have h2 := (List.perm_insertionSort _ _).subset h1
    obtain ⟨h3, h4⟩ := List.mem_filter.mp h2
    exact ⟨f, h3, h4, hfe⟩

theorem listFilter_owner {rx : String → String → Bool} {o : Nat} {trash search : String}
    {f : FileRecord} (h : listFilter rx o trash search f = true) : f.uploadedBy = o := by
  unfold listFilter at h
  simp only [Bool.and_eq_true, beq_iff_eq] at h
  exact h.1.1

theorem listFilter_trash {rx : String → String → Bool} {o : Nat} {trash search : String}
    {f : FileRecord} (h : listFilter rx o trash search f = true) :
    trashSelects trash f = true := by
  unfold listFilter at h
  simp only [Bool.and_eq_true] at h
  exact h.1.2

theorem filter_owner_listFilter (rx : String → String → Bool) (o : Nat)
    (trash search : String) (l : List FileRecord) :
    (l.filter (fun f => f.uploadedBy == o)).filter (listFilter rx o trash search)
      = l.filter (listFilter rx o trash search) := by
  rw [List.filter_filter]
  apply List.filter_congr
  intro f _
  cases h : listFilter rx o trash search f with
  | false => simp
  | true => simp [listFilter_owner h]

/-! ## Claims on the storage key and on listing -/

/-- C11, counterexample. Two uploads with the same generated identifier `u2` that differ
only in the original name get different storage keys, `u2-a.txt` and `u2-b.txt`: the
user-supplied name is part of the key. -/
theorem storage_key_differs_with_name :
    (storedFile sampleEnv ⟨"a.txt", "text/plain", [1]⟩).filename = "u2-a.txt"
      ∧ (storedFile sampleEnv ⟨"b.txt", "text/plain", [1]⟩).filename = "u2-b.txt"
      ∧ (storedFile sampleEnv ⟨"a.txt", "text/plain", [1]⟩).filename
          ≠ (storedFile sampleEnv ⟨"b.txt", "text/plain", [1]⟩).filename
      ∧ ((upload sampleEnv sampleStore 1 (some ⟨"a.txt", "text/plain", [1]⟩)).store.files.map
          (fun f => f.filename)) = ["u1-a.txt", "u2-a.txt"]
      ∧ ((upload sampleEnv sampleStore 1 (some ⟨"b.txt", "text/plain", [1]⟩)).store.files.map
          (fun f => f.filename)) = ["u1-a.txt", "u2-b.txt"] := by
  decide

/-- C11, amended. The storage key of an upload is the generated identifier, a hyphen and
the user-supplied original name, and the blob path is that key under the uploads
directory. Two uploads with the same identifier get the same key exactly when their
original names are equal; two uploads whose identifiers have the same length get the same
key only if identifier and name are both equal. -/
theorem storage_key_shape (env env2 : Env) (p p2 : Payload) :
    (storedFile env p).filename = env.uuid ++ "-" ++ p.originalname
      ∧ (storedFile env p).path = pathJoin uploadsDir (env.uuid ++ "-" ++ p.originalname)
      ∧ ((storedFile env p).filename = (storedFile env p2).filename
          ↔ p.originalname = p2.originalname)
      ∧ (env.uuid.length = env2.uuid.length →
          (storedFile env p).filename = (storedFile env2 p2).filename →
          env.uuid = env2.uuid ∧ p.originalname = p2.originalname) := by
  refine ⟨rfl, rfl, ⟨?_, ?_⟩, ?_⟩
  · intro h
    have h2 := congrArg String.data h
    simp only [storedFile, uniqueName, String.data_append] at h2
    exact String.ext (List.append_cancel_left h2)
  · intro h
    simp only [storedFile, uniqueName, h]
  · intro hlen h
    have h2 := congrArg String.data h
    simp only [storedFile, uniqueName, String.data_append, List.append_assoc] at h2
    have hl : env.uuid.data.length = env2.uuid.data.length := hlen
    obtain ⟨h3, h4⟩ := List.append_inj h2 hl
    exact ⟨String.ext h3, String.ext (List.append_cancel_left h4)⟩

/-- C11, witness of the amended claim: identifiers `u2` and `u3`, names `a.txt` and
`b.txt`. -/
theorem storage_key_shape_witness :
    (storedFile sampleEnv ⟨"a.txt", "text/plain", [1]⟩).filename = "u2" ++ "-" ++ "a.txt"
      ∧ ((storedFile sampleEnv ⟨"a.txt", "text/plain", [1]⟩).filename
          = (storedFile { sampleEnv with uuid := "u3" } ⟨"b.txt", "text/plain", [1]⟩).filename →
          "u2" = "u3" ∧ "a.txt" = "b.txt") :=
  ⟨(storage_key_shape sampleEnv sampleEnv ⟨"a.txt", "text/plain", [1]⟩
      ⟨"a.txt", "text/plain", [1]⟩).1,
   (storage_key_shape sampleEnv { sampleEnv with uuid := "u3" } ⟨"a.txt", "text/plain", [1]⟩
      ⟨"b.txt", "text/plain", [1]⟩).2.2.2 (by decide)⟩

/-- C12. For every store, requester `o` and query (page, limit, search, trash), whatever
the regular-expression engine: every entry of the list response is the projection of a
record of the collection with `uploadedBy = o`; `totalFiles` is the number of records that
pass the filter, all of them records of `o`; and the response is the one the same request
gets on the collection cut down to the records of `o`. -/
theorem list_owner_scoped (rx : String → String → Bool) (s : Store) (o : Nat)
    (q : ListQuery) :
    (∀ e ∈ (list rx s o q).response.entries,
        ∃ f ∈ s.files, f.uploadedBy = o ∧ toEntry f = e)
      ∧ (∀ pg, (list rx s o q).response.pageInfo = some pg →
          pg.totalFiles
              = (s.files.filter (fun f => f.uploadedBy == o
                  && listFilter rx o (q.trash.getD "false") (q.search.getD "") f)).length
            ∧ pg.totalFiles ≤ (s.files.filter (fun f => f.uploadedBy == o)).length)
      ∧ (list rx { s with files := s.files.filter (fun f => f.uploadedBy == o) } o q).response
          = (list rx s o q).response := by
  refine ⟨?_, ?_, ?_⟩
  · intro e he
    obtain ⟨f, hf, hq, hfe⟩ := mem_of_mem_list_entries he
    exact ⟨f, hf, listFilter_owner hq, hfe⟩
  · intro pg hpg
    rw [list_pageInfo] at hpg
    split at hpg
    · exact absurd hpg (by simp)
    · have hpg2 := (Option.some.inj hpg).symm
      subst hpg2
      have e1 : s.files.filter (fun f => f.uploadedBy == o
          && listFilter rx o (q.trash.getD "false") (q.search.getD "") f)
          = s.files.filter (listFilter rx o (q.trash.getD "false") (q.search.getD "")) := by
        apply List.filter_congr
        intro f _
        cases h : listFilter rx o (q.trash.getD "false") (q.search.getD "") f with
        | false => simp
        | true => simp [listFilter_owner h]
      rw [e1]
      refine ⟨rfl, ?_⟩
      show (List.filter _ s.files).length ≤ _
      rw [← filter_owner_listFilter]
      exact List.length_filter_le _ _
  · unfold list
    simp only [filter_owner_listFilter]
    split <;> rfl

/-- C12, witness on `sampleStore3`, which holds records of users 1 and 2: the default
listing of user 1 counts three files and every entry comes from a record of user 1. -/
theorem list_owner_scoped_witness :
    (list noExt sampleStore3 1 ⟨none, none, none, none⟩).response.pageInfo
        = some { currentPage := 1, totalPages := some 1, totalFiles := 3,
                 hasNextPage := false, hasPrevPage := false }
      ∧ (3 : Nat) ≤ (sampleStore3.files.filter (fun f => f.uploadedBy == 1)).length
      ∧ ∃ f ∈ sampleStore3.files, f.uploadedBy = 1 ∧ toEntry f = toEntry samplePdf :=
  ⟨by decide,
   ((list_owner_scoped noExt sampleStore3 1 ⟨none, none, none, none⟩).2.1
      { currentPage := 1, totalPages := some 1, totalFiles := 3,
        hasNextPage := false, hasPrevPage := false } (by decide)).2,
   (list_owner_scoped noExt sampleStore3 1 ⟨none, none, none, none⟩).1 (toEntry samplePdf)
      (by decide)⟩

/-- C13. For every store, requester, page, limit and search: a list request with
`trash=false` (or no `trash` parameter) returns only entries with `deleted = false`, and a
list request with `trash=true` returns only entries with `deleted = true`. -/
theorem list_trash_exclusive (rx : String → String → Bool) (s : Store) (o : Nat)
    (page limit : Option Int) (search : Option String) :
    (∀ e ∈ (list rx s o ⟨page, limit, search, some "false"⟩).response.entries,
        e.deleted = false)
      ∧ (∀ e ∈ (list rx s o ⟨page, limit, search, none⟩).response.entries,
        e.deleted = false)
      ∧ (∀ e ∈ (list rx s o ⟨page, limit, search, some "true"⟩).response.entries,
        e.deleted = true) := by
  refine ⟨?_, ?_, ?_⟩
  · intro e he
    obtain ⟨f, _, hq, hfe⟩ := mem_of_mem_list_entries he
    have := listFilter_trash hq
    rw [← hfe]
    simpa [trashSelects, toEntry] using this
  · intro e he
    obtain ⟨f, _, hq, hfe⟩ := mem_of_mem_list_entries he
    have := listFilter_trash hq
    rw [← hfe]
    simpa [trashSelects, toEntry] using this
  · intro e he
    obtain ⟨f, _, hq, hfe⟩ := mem_of_mem_list_entries he
    have := listFilter_trash hq
    rw [← hfe]
    simpa [trashSelects, toEntry] using this

/-- C13, witness on `sampleStore3`: the trash listing of user 1 is the trashed record, the
default listing has none with `deleted = true`. -/
theorem list_trash_exclusive_witness :
    (list noExt sampleStore3 1 ⟨none, none, none, some "true"⟩).response.entries
        = [toEntry sampleTrashed]
      ∧ (toEntry sampleTrashed).deleted = true
      ∧ (toEntry samplePdf).deleted = false :=
  ⟨by decide,
   (list_trash_exclusive noExt sampleStore3 1 none none none).2.2 (toEntry sampleTrashed)
      (by decide),
   (list_trash_exclusive noExt sampleStore3 1 none none none).1 (toEntry samplePdf)
      (by decide)⟩

/-! ## The regular-expression test on ordinary characters -/

theorem atomMatches_ordinary {p : Char} (hp : p ∉ regexSpecialChars) (c : Char) :
    atomMatches p c = (p.toLower == c.toLower) := by
  have hne : p ≠ '.' := by
    intro e
    apply hp
    rw [e]
    decide
  simp [atomMatches, hne]

theorem matchHere_ordinary (ps : List Char) (hps : ∀ c ∈ ps, c ∉ regexSpecialChars) :
    ∀ cs : List Char, matchHere ps cs = true
      ↔ ∃ rest, cs.map Char.toLower = ps.map Char.toLower ++ rest := by
  induction ps with
  | nil => intro cs; simp [matchHere]
  | cons p ps ih =>
    intro cs
    cases cs with
    | nil => simp [matchHere]
    | cons c cs =>
      have hp := hps p (List.mem_cons_self _ _)
      have ih2 := ih (fun x hx => hps x (List.mem_cons_of_mem _ hx)) cs
      simp only [matchHere, atomMatches_ordinary hp, Bool.and_eq_true, beq_iff_eq, ih2,
        List.map_cons, List.cons_append, List.cons.injEq]
      constructor
      · rintro ⟨h1, rest, h2⟩
        exact ⟨rest, h1.symm, h2⟩
      · rintro ⟨rest, h1, h2⟩
        exact ⟨h1.symm, rest, h2⟩

theorem matchAnywhere_ordinary (ps : List Char) (hps : ∀ c ∈ ps, c ∉ regexSpecialChars) :
    ∀ cs : List Char, matchAnywhere ps cs = true
      ↔ ∃ before after, cs.map Char.toLower = before ++ ps.map Char.toLower ++ after := by
  intro cs
  induction cs with
  | nil =>
    simp only [matchAnywhere, matchHere_ordinary ps hps, List.map_nil]
    constructor
    · rintro ⟨rest, h⟩
      exact ⟨[], rest, by simpa using h⟩
    · rintro ⟨before, after, h⟩
      have h2 := congrArg List.length h
      simp only [List.length_nil, List.length_append, List.length_map] at h2
      have h3 : ps = [] := List.length_eq_zero.mp (by omega)
      exact ⟨[], by simp [h3]⟩
  | cons c cs ih =>
    simp only [matchAnywhere, Bool.or_eq_true, matchHere_ordinary ps hps, ih, List.map_cons]
    constructor
    · rintro (⟨rest, h⟩ | ⟨before, after, h⟩)
      · exact ⟨[], rest, by simpa using h⟩
      · exact ⟨c.toLower :: before, after, by simp [h]⟩
    · rintro ⟨before, after, h⟩
      cases before with
      | nil => exact Or.inl ⟨after, by simpa using h⟩
      | cons b before =>
        simp only [List.cons_append, List.cons.injEq] at h
        exact Or.inr ⟨before, after, h.2⟩

theorem dotPattern_ordinary {pat : String} (h : ∀ c ∈ pat.data, c ∉ regexSpecialChars) :
    dotPattern pat = true := by
  unfold dotPattern
  rw [List.all_eq_true]
  intro c hc
  have := h c hc
  simp [this]

theorem regexTest_ordinary (ext : String → String → Bool) (pat subject : String)
    (h : ∀ c ∈ pat.data, c ∉ regexSpecialChars) :
    regexTest ext pat subject = true ↔ containsIgnoreCase subject pat := by
  unfold regexTest containsIgnoreCase
  rw [if_pos (dotPattern_ordinary h)]
  exact matchAnywhere_ordinary pat.data h subject.data

/-- C14, counterexample. The search `a.c` is a regular expression whose dot stands for any
character: the record of user 1 named `abc.txt` passes the list filter and is returned,
though its name does not contain `a.c` as a literal substring. -/
theorem search_dot_is_wildcard :
    sampleAbc ∈ sampleStore3.files ∧ sampleAbc.originalName = "abc.txt"
      ∧ listFilter (regexTest noExt) 1 "false" "a.c" sampleAbc = true
      ∧ (list (regexTest noExt) sampleStore3 1
          ⟨none, none, some "a.c", none⟩).response.entries = [toEntry sampleAbc]
      ∧ ¬ containsIgnoreCase sampleAbc.originalName "a.c" := by
  decide

/-- C14, amended. For a non-empty search string without regular-expression special
characters (backslash, `^`, `$`, `.`, `[`, `]`, `|`, `(`, `)`, `?`, `*`, `+`, braces) and a
record of the requester in the selected trash state, the record passes the list filter if
and only if its original name, compared case-insensitively, contains the search string as
a literal substring. -/
theorem search_ordinary_is_substring (ext : String → String → Bool) (o : Nat)
    (trash search : String) (f : FileRecord) (hne : search ≠ "")
    (hord : ∀ c ∈ search.data, c ∉ regexSpecialChars) (ho : f.uploadedBy = o)
    (ht : trashSelects trash f = true) :
    listFilter (regexTest ext) o trash search f = true
      ↔ containsIgnoreCase f.originalName search := by
  have ht2 : (if trash = "true" then f.deleted == true else f.deleted != true) = true := ht
  unfold listFilter
  rw [ht2, if_pos hne]
  simp only [ho, beq_self_eq_true, Bool.and_self, Bool.true_and]
  exact regexTest_ordinary ext search f.originalName hord

/-- C14, witness of the amended claim: `Report.PDF` passes the filter for the search
`report`. -/
theorem search_ordinary_is_substring_witness :
    containsIgnoreCase samplePdf.originalName "report"
      ∧ listFilter (regexTest noExt) 1 "false" "report" samplePdf = true :=
  ⟨by decide,
   (search_ordinary_is_substring noExt 1 "false" "report" samplePdf (by decide) (by decide)
     rfl (by decide)).mpr (by decide)⟩

/-! ## Pages -/

theorem listFilter_empty_search (rx : String → String → Bool) (o : Nat) (trash : String) :
    listFilter rx o trash "" = fun f => f.uploadedBy == o && trashSelects trash f := by
  funext f
  simp [listFilter, trashSelects]

theorem orderedRecords_perm (s : Store) (o : Nat) (trash : String) :
    (orderedRecords s o trash).Perm
      (s.files.filter (fun f => f.uploadedBy == o && trashSelects trash f)) :=
  List.perm_insertionSort _ _

theorem orderedRecords_sorted (s : Store) (o : Nat) (trash : String) :
    (orderedRecords s o trash).Pairwise (fun a b => a.uploadedAt ≥ b.uploadedAt) := by
  haveI : IsTotal FileRecord (fun a b => a.uploadedAt ≥ b.uploadedAt) :=
    ⟨fun a b => Nat.le_total b.uploadedAt a.uploadedAt⟩
  haveI : IsTrans FileRecord (fun a b => a.uploadedAt ≥ b.uploadedAt) :=
    ⟨fun _ _ _ hab hbc => Nat.le_trans hbc hab⟩
  exact List.sorted_insertionSort _ _

theorem skip_natAbs (p L : Nat) (hp : 1 ≤ p) :
    (((p : Int) - 1) * (L : Int)).natAbs = (p - 1) * L := by
  have h1 : ((p : Int) - 1) * (L : Int) = (((p - 1) * L : Nat) : Int) := by
    push_cast [Nat.cast_sub hp]
    ring
  rw [h1, Int.natAbs_ofNat]

theorem skip_nonneg (p L : Nat) (hp : 1 ≤ p) : ¬ ((p : Int) - 1) * (L : Int) < 0 := by
  have h1 : (0 : Int) ≤ (p : Int) - 1 := by omega
  have h2 : (0 : Int) ≤ (L : Int) := Int.ofNat_nonneg L
  exact not_lt.mpr (mul_nonneg h1 h2)

theorem applyLimit_pos (L : Nat) (hL : 1 ≤ L) (l : List FileRecord) :
    applyLimit (L : Int) l = l.take L := by
  unfold applyLimit
  have h : (L : Int) ≠ 0 := by omega
  rw [if_neg h, Int.natAbs_ofNat]

/-- C15. With an empty search, page `p ≥ 1` and limit `L ≥ 1`, the list request answers
200 and its entry number `i` is, for `i < L`, the record at position `(p - 1) * L + i` of
the requester's records in the selected trash state ordered newest first, and there is no
entry from `L` on; that ordered list is a rearrangement of those records in which every
record is uploaded no earlier than the ones after it. -/
theorem list_page_slice (rx : String → String → Bool) (s : Store) (o : Nat) (p L : Nat)
    (search trash : Option String) (hp : 1 ≤ p) (hL : 1 ≤ L)
    (hsearch : search.getD "" = "") :
    (list rx s o ⟨some p, some L, search, trash⟩).response.status = 200
      ∧ (∀ i : Nat,
          (list rx s o ⟨some p, some L, search, trash⟩).response.entries[i]? =
            if i < L then
              ((orderedRecords s o (trash.getD "false")).map toEntry)[(p - 1) * L + i]?
            else none)
      ∧ (orderedRecords s o (trash.getD "false")).Perm
          (s.files.filter (fun f => f.uploadedBy == o && trashSelects (trash.getD "false") f))
      ∧ (orderedRecords s o (trash.getD "false")).Pairwise
          (fun a b => a.uploadedAt ≥ b.uploadedAt) := by
  refine ⟨?_, ?_, orderedRecords_perm _ _ _, orderedRecords_sorted _ _ _⟩
  · rw [list_status]
    exact if_neg (skip_nonneg p L hp)
  · intro i
    rw [list_entries]
    simp only [Option.getD_some, hsearch]
    rw [if_neg (skip_nonneg p L hp), skip_natAbs p L hp, applyLimit_pos L hL,
      listFilter_empty_search]
    show (List.map toEntry (List.take L (List.drop ((p - 1) * L)
      (orderedRecords s o (trash.getD "false")))))[i]? = _
    rw [List.getElem?_map, List.getElem?_take]
    split
    · rw [List.getElem?_drop, List.getElem?_map]
    · rfl

/-- C15, witness: page 2 with limit 2 of the active records of user 1 in `sampleStore3`
holds the third newest record, the one uploaded at time 10. -/
theorem list_page_slice_witness :
    (orderedRecords sampleStore3 1 "false").map (fun f => f.uploadedAt) = [30, 20, 10]
      ∧ (list noExt sampleStore3 1 ⟨some 2, some 2, none, none⟩).response.entries
          = [toEntry sampleFile]
      ∧ (list noExt sampleStore3 1 ⟨some 2, some 2, none, none⟩).response.entries[0]?
          = ((orderedRecords sampleStore3 1 "false").map toEntry)[2]? :=
  ⟨by decide, by decide,
   (list_page_slice noExt sampleStore3 1 2 2 none none (by decide) (by decide) rfl).2.1 0⟩

theorem list_pagination_exact (rx : String → String → Bool) (s : Store) (o : Nat) (p L : Nat)
    (search trash : Option String) (hp : 1 ≤ p) (hL : 1 ≤ L) :
    ∃ pg t,
      (list rx s o ⟨some p, some L, search, trash⟩).response.pageInfo = some pg
        ∧ pg.currentPage = p
        ∧ pg.totalFiles
            = (s.files.filter
                (listFilter rx o (trash.getD "false") (search.getD ""))).length
        ∧ pg.totalPages = some t
        ∧ (L : Int) * (t - 1) < pg.totalFiles ∧ (pg.totalFiles : Int) ≤ L * t
        ∧ pg.hasPrevPage = decide (1 < p)
        ∧ pg.hasNextPage = decide (p * L < pg.totalFiles) := by
  have hLpos : (0 : Int) < (L : Int) := by omega
  have hpi := list_pageInfo rx s o ⟨some p, some L, search, trash⟩
  simp only [Option.getD_some] at hpi
  rw [if_neg (skip_nonneg p L hp)] at hpi
  have hceil : ceilDiv (s.files.filter
      (listFilter rx o (trash.getD "false") (search.getD ""))).length (L : Int)
      = some ((((s.files.filter
          (listFilter rx o (trash.getD "false") (search.getD ""))).length : Int) + L - 1)
          / L) := by
    simp only [ceilDiv]
    rw [if_neg (by omega : ¬ (L : Int) = 0), if_pos hLpos]
  rw [hceil] at hpi
  refine ⟨_, _, hpi, rfl, rfl, rfl, ?_, ?_, ?_, ?_⟩
  · simp only
    have h1 := Int.emod_add_ediv (((s.files.filter
      (listFilter rx o (trash.getD "false") (search.getD ""))).length : Int) + L - 1) L
    have h2 := Int.emod_nonneg (((s.files.filter
      (listFilter rx o (trash.getD "false") (search.getD ""))).length : Int) + L - 1)
      (by omega : (L : Int) ≠ 0)
    rw [mul_sub, mul_one]
    linarith
  · simp only
    have h1 := Int.emod_add_ediv (((s.files.filter
      (listFilter rx o (trash.getD "false") (search.getD ""))).length : Int) + L - 1) L
    have h2 := Int.emod_lt_of_pos (((s.files.filter
      (listFilter rx o (trash.getD "false") (search.getD ""))).length : Int) + L - 1) hLpos
    linarith
  · simp only [gt_iff_lt, decide_eq_decide]
    omega
  · simp only [decide_eq_decide]
    constructor
    · intro h; exact_mod_cast h
    · intro h; exact_mod_cast h

theorem roundToEven_zero (n : Nat) : roundToEven 0 n = n := by
  simp [roundToEven, Nat.mod_one]

theorem nearestDouble_of_lt {n : Nat} (h : n < 2 ^ 53) : nearestDouble n = some n := by
  show nearestDoubleFrom (971 + 1) 0 n = some n
  unfold nearestDoubleFrom
  rw [if_pos (by simpa using h), roundToEven_zero,
    if_neg (by omega : ¬ ((0 : Nat) = 971 ∧ 2 ^ 53 ≤ n / 2 ^ 0))]

theorem jsNumber_of_lt {n : Int} (h : n.natAbs < 2 ^ 53) : jsNumber n = some n := by
  unfold jsNumber
  rw [nearestDouble_of_lt h]
  simp only
  congr 1
  by_cases hn : n < 0
  · rw [if_pos hn]
    omega
  · rw [if_neg hn]
    omega

theorem listJs_eq_list (rx : String → String → Bool) (s : Store) (o : Nat) (p L : Nat)
    (search trash : Option String) (hp : 1 ≤ p) (hL : 1 ≤ L) (hsafe : p * L < 2 ^ 53) :
    listJs rx s o ⟨some p, some L, search, trash⟩
      = list rx s o ⟨some p, some L, search, trash⟩ := by
  have hpL : p ≤ p * L := Nat.le_mul_of_pos_right p (by omega)
  have hLp : L ≤ p * L := Nat.le_mul_of_pos_left L (by omega)
  have hsk : (p - 1) * L ≤ p * L := Nat.mul_le_mul_right L (Nat.sub_le p 1)
  have e1 : jsNumber (p : Int) = some (p : Int) :=
    jsNumber_of_lt (by rw [Int.natAbs_ofNat]; omega)
  have e2 : jsNumber (L : Int) = some (L : Int) :=
    jsNumber_of_lt (by rw [Int.natAbs_ofNat]; omega)
  have e3 : jsNumber ((p : Int) - 1) = some ((p : Int) - 1) := by
    apply jsNumber_of_lt
    have : ((p : Int) - 1) = ((p - 1 : Nat) : Int) := by
      push_cast [Nat.cast_sub hp]
      ring
    rw [this, Int.natAbs_ofNat]
    omega
  have e4 : jsNumber (((p : Int) - 1) * (L : Int)) = some (((p : Int) - 1) * (L : Int)) := by
    apply jsNumber_of_lt
    rw [skip_natAbs p L hp]
    omega
  have e5 : jsNumber ((p : Int) * (L : Int)) = some ((p : Int) * (L : Int)) := by
    apply jsNumber_of_lt
    have : ((p : Int) * (L : Int)) = ((p * L : Nat) : Int) := by push_cast; ring
    rw [this, Int.natAbs_ofNat]
    exact hsafe
  have e6 : skipJs (p : Int) (L : Int) = some (((p : Int) - 1) * (L : Int)) := by
    unfold skipJs
    rw [e3]
    exact e4
  unfold listJs list
  simp only [Option.getD_some, e1, e2, e5, e6]

/-- C16, counterexample. For `page=9007199254740993` (and the default limit) over the three
active records of user 1 the handler answers 200 with `currentPage = 9007199254740992`,
the double nearest to the page asked for: `parseInt(page)` is a JavaScript number. -/
theorem current_page_is_rounded :
    (listJs noExt sampleStore3 1 ⟨some 9007199254740993, none, none, none⟩).response.status
        = 200
      ∧ (listJs noExt sampleStore3 1
          ⟨some 9007199254740993, none, none, none⟩).response.pageInfo
        = some { currentPage := 9007199254740992, totalPages := some 1, totalFiles := 3,
                 hasNextPage := false, hasPrevPage := true }
      ∧ (9007199254740992 : Int) ≠ 9007199254740993 := by
  decide

/-- C16, amended. For page `p ≥ 1` and limit `L ≥ 1` with `p * L < 2^53` (where the
arithmetic of the handler on JavaScript numbers is exact) and `N` records passing the
filter of the query, the list response has `currentPage = p`, `totalFiles = N`,
`totalPages` the least integer `t` with `N ≤ L * t` (the ceiling of `N / L`),
`hasPrevPage = (p > 1)` and `hasNextPage = (p * L < N)`. -/
theorem listJs_pagination (rx : String → String → Bool) (s : Store) (o : Nat) (p L : Nat)
    (search trash : Option String) (hp : 1 ≤ p) (hL : 1 ≤ L) (hsafe : p * L < 2 ^ 53) :
    ∃ pg t,
      (listJs rx s o ⟨some p, some L, search, trash⟩).response.pageInfo = some pg
        ∧ pg.currentPage = p
        ∧ pg.totalFiles
            = (s.files.filter
                (listFilter rx o (trash.getD "false") (search.getD ""))).length
        ∧ pg.totalPages = some t
        ∧ (L : Int) * (t - 1) < pg.totalFiles ∧ (pg.totalFiles : Int) ≤ L * t
        ∧ pg.hasPrevPage = decide (1 < p)
        ∧ pg.hasNextPage = decide (p * L < pg.totalFiles) := by
  rw [listJs_eq_list rx s o p L search trash hp hL hsafe]
  exact list_pagination_exact rx s o p L search trash hp hL

/-- C16, witness of the amended claim: page 1 with limit 2 over the three active records of
user 1. -/
theorem listJs_pagination_witness :
    (listJs noExt sampleStore3 1 ⟨some 1, some 2, none, none⟩).response.pageInfo
      = some { currentPage := 1, totalPages := some 2, totalFiles := 3,
               hasNextPage := true, hasPrevPage := false }
      ∧ ∃ pg t,
          (listJs noExt sampleStore3 1
              ⟨some ((1 : Nat) : Int), some ((2 : Nat) : Int), none, none⟩).response.pageInfo
            = some pg ∧ pg.currentPage = ((1 : Nat) : Int) ∧ pg.totalPages = some t
            ∧ ((2 : Nat) : Int) * (t - 1) < pg.totalFiles :=
  ⟨by decide,
   match listJs_pagination noExt sampleStore3 1 1 2 none none (by decide) (by decide)
     (by decide) with
   | ⟨pg, t, h1, h2, _, h4, h5, _⟩ => ⟨pg, t, h1, h2, h4, h5⟩⟩

/-- C17. For `N` records passing the filter, limit `L ≥ 1` and a page `p` above the number
of pages (above some `t` with `N ≤ L * t`, as the ceiling of `N / L` is), the list request
answers 200 with an empty `files` array and `hasNextPage = false`. -/
theorem list_page_out_of_range (rx : String → String → Bool) (s : Store) (o : Nat)
    (p L t : Int) (search trash : Option String) (hL : 1 ≤ L)
    (ht : ((s.files.filter
      (listFilter rx o (trash.getD "false") (search.getD ""))).length : Int) ≤ L * t)
    (hpt : t < p) :
    (list rx s o ⟨some p, some L, search, trash⟩).response.status = 200
      ∧ (list rx s o ⟨some p, some L, search, trash⟩).response.entries = []
      ∧ ∃ pg, (list rx s o ⟨some p, some L, search, trash⟩).response.pageInfo = some pg
          ∧ pg.hasNextPage = false := by
  have hN : (0 : Int) ≤ ((s.files.filter
      (listFilter rx o (trash.getD "false") (search.getD ""))).length : Int) :=
    Int.ofNat_nonneg _
  have hskip : ((s.files.filter
      (listFilter rx o (trash.getD "false") (search.getD ""))).length : Int)
      ≤ (p - 1) * L := by
    have h1 : L * t ≤ L * (p - 1) := by
      apply mul_le_mul_of_nonneg_left <;> omega
    linarith
  have hnot : ¬ (p - 1) * L < 0 := by linarith
  refine ⟨?_, ?_, ?_⟩
  · rw [list_status]
    exact if_neg hnot
  · rw [list_entries]
    simp only [Option.getD_some]
    rw [if_neg hnot]
    have hlen : (List.insertionSort (fun a b => a.uploadedAt ≥ b.uploadedAt)
        (s.files.filter (listFilter rx o (trash.getD "false") (search.getD "")))).length
        ≤ ((p - 1) * L).natAbs := by
      rw [List.length_insertionSort]
      omega
    rw [List.drop_eq_nil_of_le hlen]
    simp [applyLimit]
  · have hpi := list_pageInfo rx s o ⟨some p, some L, search, trash⟩
    simp only [Option.getD_some] at hpi
    rw [if_neg hnot] at hpi
    refine ⟨_, hpi, ?_⟩
    simp only [decide_eq_false_iff_not, not_lt]
    have : (p - 1) * L ≤ p * L := by
      apply mul_le_mul_of_nonneg_right <;> omega
    linarith

/-- C17, witness: page 3 with limit 2 over the three active records of user 1, which fill
two pages. -/
theorem list_page_out_of_range_witness :
    (list noExt sampleStore3 1 ⟨some 3, some 2, none, none⟩).response.status = 200
      ∧ (list noExt sampleStore3 1 ⟨some 3, some 2, none, none⟩).response.entries = [] :=
  ⟨(list_page_out_of_range noExt sampleStore3 1 3 2 2 none none (by decide) (by decide)
      (by decide)).1,
   (list_page_out_of_range noExt sampleStore3 1 3 2 2 none none (by decide) (by decide)
      (by decide)).2.1⟩

/-! ## Download -/

theorem download_notFound {s : Store} {o : Nat} {k : String}
    (h : findOne (fun f => f.filename == k && f.uploadedBy == o) s.files = none) :
    download s o k = ⟨s, ⟨404, .error "File not found"⟩, []⟩ := by
  simp only [download, h]

theorem download_found {s : Store} {o : Nat} {k : String} {file : FileRecord}
    (h : findOne (fun f => f.filename == k && f.uploadedBy == o) s.files = some file) :
    download s o k =
      if pathExists s.disk (pathJoin uploadsDir k) = true then
        ⟨s, ⟨200, .download (pathJoin uploadsDir k) file.originalName⟩, []⟩
      else ⟨s, ⟨404, .error "File not found on disk"⟩, []⟩ := by
  have hk : file.filename = k := by
    have := (findOne_some h).2
    simp only [Bool.and_eq_true, beq_iff_eq] at this
    exact this.1
  simp only [download, h, hk]
  cases pathExists s.disk (pathJoin uploadsDir k) <;> rfl

theorem findOne_owned_none_iff (s : Store) (o : Nat) (k : String) :
    findOne (fun f => f.filename == k && f.uploadedBy == o) s.files = none
      ↔ ¬ ∃ r ∈ s.files, r.filename = k ∧ r.uploadedBy = o := by
  constructor
  · rintro h ⟨r, hr, hk, ho⟩
    have := findOne_none h r hr
    simp [hk, ho] at this
  · intro h
    apply findOne_none_of_forall
    intro f hf
    by_contra hq
    simp only [Bool.not_eq_false, Bool.and_eq_true, beq_iff_eq] at hq
    exact h ⟨f, hf, hq.1, hq.2⟩

/-- C18. Download of `(k, o)` answers 404 'File not found' exactly when the collection has
no record with filename `k` and owner `o`; it answers 404 'File not found on disk' exactly
when there is such a record and no blob under `k`; when there is such a record and the
blob is there it answers 200 and serves the blob path under the original name of a record
`(k, o)`, which in a well-formed store is the record itself whatever its `deleted` flag.
The stores are left as they were. -/
theorem download_classification (s : Store) (o : Nat) (k : String) :
    ((download s o k).response = ⟨404, .error "File not found"⟩
        ↔ ¬ ∃ r ∈ s.files, r.filename = k ∧ r.uploadedBy = o)
      ∧ ((download s o k).response = ⟨404, .error "File not found on disk"⟩
        ↔ (∃ r ∈ s.files, r.filename = k ∧ r.uploadedBy = o)
            ∧ pathExists s.disk (pathJoin uploadsDir k) = false)
      ∧ ((∃ r ∈ s.files, r.filename = k ∧ r.uploadedBy = o) →
          pathExists s.disk (pathJoin uploadsDir k) = true →
          ∃ r ∈ s.files, r.filename = k ∧ r.uploadedBy = o
            ∧ (download s o k).response
                = ⟨200, .download (pathJoin uploadsDir k) r.originalName⟩)
      ∧ (WellFormed s → ∀ r ∈ s.files, r.filename = k → r.uploadedBy = o →
          pathExists s.disk (pathJoin uploadsDir k) = true →
          (download s o k).response
            = ⟨200, .download (pathJoin uploadsDir k) r.originalName⟩)
      ∧ (download s o k).store = s := by
  cases h : findOne (fun f => f.filename == k && f.uploadedBy == o) s.files with
  | none =>
    have hno := (findOne_owned_none_iff s o k).mp h
    rw [download_notFound h]
    refine ⟨⟨fun _ => hno, fun _ => rfl⟩, ⟨?_, ?_⟩, ?_, ?_, rfl⟩
    · intro he
      exact absurd (congrArg Response.body he) (by simp)
    · rintro ⟨hex, -⟩
      exact absurd hex hno
    · intro hex
      exact absurd hex hno
    · intro _ r hr hk ho
      exact absurd ⟨r, hr, hk, ho⟩ hno
  | some file =>
    obtain ⟨hmem, hq⟩ := findOne_some h
    simp only [Bool.and_eq_true, beq_iff_eq] at hq
    have hex : ∃ r ∈ s.files, r.filename = k ∧ r.uploadedBy = o := ⟨file, hmem, hq.1, hq.2⟩
    rw [download_found h]
    cases hp : pathExists s.disk (pathJoin uploadsDir k) with
    | true =>
      rw [if_pos rfl]
      refine ⟨⟨?_, fun hno => absurd hex hno⟩, ⟨?_, ?_⟩, ?_, ?_, rfl⟩
      · intro he
        exact absurd (show (200 : Nat) = 404 from congrArg Response.status he) (by decide)
      · intro he
        exact absurd (show (200 : Nat) = 404 from congrArg Response.status he) (by decide)
      · rintro ⟨-, hf⟩
        exact absurd hf (by simp)
      · intro _ _
        exact ⟨file, hmem, hq.1, hq.2, rfl⟩
      · intro hw r hr hk ho _
        have hfr := findOne_owned_of_unique hw hr hk ho
        rw [h] at hfr
        rw [Option.some.inj hfr]
    | false =>
      rw [if_neg Bool.false_ne_true]
      refine ⟨⟨?_, fun hno => absurd hex hno⟩, ⟨fun _ => ⟨hex, rfl⟩, fun _ => rfl⟩, ?_, ?_, rfl⟩
      · intro he
        exact absurd (congrArg Response.body he) (by simp)
      · intro _ hf
        exact absurd hf (by simp)
      · intro _ r _ _ _ hf
        exact absurd hf (by simp)

/-- C18, witness: in `sampleStore3` the trashed record of user 1 has its blob and is
served; the record named `abc.txt` has no blob; user 2 has no record under that key. -/
theorem download_classification_witness :
    (download sampleStore3 1 "u5-t.txt").response
        = ⟨200, .download "uploads/u5-t.txt" "a.txt"⟩
      ∧ (download sampleStore3 1 "u3-abc.txt").response
        = ⟨404, .error "File not found on disk"⟩
      ∧ (download sampleStore3 2 "u3-abc.txt").response = ⟨404, .error "File not found"⟩ :=
  ⟨(download_classification sampleStore3 1 "u5-t.txt").2.2.2.1 (by decide) sampleTrashed
      (by decide) rfl rfl (by decide),
   (download_classification sampleStore3 1 "u3-abc.txt").2.1.mpr
      ⟨⟨sampleAbc, by decide, rfl, rfl⟩, by decide⟩,
   (download_classification sampleStore3 2 "u3-abc.txt").1.mpr (by decide)⟩

/-- C19, counterexample. The stores `sampleStore` and `samplePngStore` differ only in the
declared mimetype of the record of user 1 (`text/plain` and `image/png`); the blob exists,
and the two download responses are the same: the blob path and the original name, with no
trace of the mimetype. -/
theorem download_same_for_other_mimetype :
    (sampleStore.files.map (fun f => f.mimetype) = ["text/plain"]
        ∧ samplePngStore.files.map (fun f => f.mimetype) = ["image/png"]
        ∧ samplePngStore.files.map (fun f => { f with mimetype := "text/plain" })
            = sampleStore.files
        ∧ samplePngStore.disk = sampleStore.disk)
      ∧ (download sampleStore 1 "u1-a.txt").response
          = ⟨200, .download "uploads/u1-a.txt" "a.txt"⟩
      ∧ (download samplePngStore 1 "u1-a.txt").response
          = (download sampleStore 1 "u1-a.txt").response := by
  decide

/-- C19, amended. A successful download is tagged with the original name of a record
`(k, o)` and with the path of its blob, and with nothing else of the record: the response
to a download is the same when the declared mimetypes of the records are replaced by any
others. -/
theorem download_ignores_mimetype (s : Store) (o : Nat) (k : String)
    (m : FileRecord → String) :
    (download { s with files := s.files.map (fun f => { f with mimetype := m f }) } o
        k).response = (download s o k).response
      ∧ ∀ path name, (download s o k).response = ⟨200, .download path name⟩ →
          path = pathJoin uploadsDir k
            ∧ ∃ r ∈ s.files, r.filename = k ∧ r.uploadedBy = o ∧ name = r.originalName := by
  constructor
  · have hfind : findOne (fun f => f.filename == k && f.uploadedBy == o)
        (s.files.map (fun f => { f with mimetype := m f }))
        = (findOne (fun f => f.filename == k && f.uploadedBy == o) s.files).map
            (fun f => { f with mimetype := m f }) := by
      unfold findOne
      rw [List.find?_map]
      rfl
    cases h : findOne (fun f => f.filename == k && f.uploadedBy == o) s.files with
    | none =>
      rw [h] at hfind
      rw [download_notFound h, download_notFound hfind]
    | some file =>
      rw [h] at hfind
      rw [download_found h, download_found hfind]
      show (if pathExists s.disk (pathJoin uploadsDir k) = true then _ else _ : Result).response
        = _
      split <;> rfl
  · intro path name hresp
    cases h : findOne (fun f => f.filename == k && f.uploadedBy == o) s.files with
    | none =>
      rw [download_notFound h] at hresp
      exact absurd (show (404 : Nat) = 200 from congrArg Response.status hresp) (by decide)
    | some file =>
      obtain ⟨hmem, hq⟩ := findOne_some h
      simp only [Bool.and_eq_true, beq_iff_eq] at hq
      rw [download_found h] at hresp
      split at hresp
      · have hb := congrArg Response.body hresp
        simp only [Body.download.injEq] at hb
        exact ⟨hb.1.symm, file, hmem, hq.1, hq.2, hb.2.symm⟩
      · exact absurd (show (404 : Nat) = 200 from congrArg Response.status hresp)
          (by decide)

/-- C19, witness of the amended claim on `sampleStore`: the served name is the original
name of `sampleFile`. -/
theorem download_ignores_mimetype_witness :
    (download sampleStore 1 "u1-a.txt").response
        = ⟨200, .download "uploads/u1-a.txt" "a.txt"⟩
      ∧ ("uploads/u1-a.txt" = pathJoin uploadsDir "u1-a.txt"
        ∧ ∃ r ∈ sampleStore.files,
            r.filename = "u1-a.txt" ∧ r.uploadedBy = 1 ∧ "a.txt" = r.originalName) :=
  ⟨by decide,
   (download_ignores_mimetype sampleStore 1 "u1-a.txt" (fun _ => "image/png")).2
     "uploads/u1-a.txt" "a.txt" (by decide)⟩

/-! ## Page size -/

theorem list_entries_length_le (rx : String → String → Bool) (s : Store) (o : Nat)
    (q : ListQuery) (n : Nat) (hn : 1 ≤ n) (hq : q.limit.getD 20 = (n : Int)) :
    (list rx s o q).response.entries.length ≤ n := by
  rw [list_entries]
  split
  · exact Nat.zero_le _
  · rw [hq, applyLimit_pos n hn, List.length_map, List.length_take]
    exact Nat.min_le_left _ _

theorem list_totalPages_ceil (rx : String → String → Bool) (s : Store) (o : Nat)
    (q : ListQuery) (n : Nat) (hn : 1 ≤ n) (hq : q.limit.getD 20 = (n : Int))
    (pg : Pagination) (hpg : (list rx s o q).response.pageInfo = some pg) :
    ∃ t : Int, pg.totalPages = some t
      ∧ (n : Int) * (t - 1) < pg.totalFiles ∧ (pg.totalFiles : Int) ≤ n * t := by
  have hpos : (0 : Int) < (n : Int) := by omega
  rw [list_pageInfo] at hpg
  split at hpg
  · exact absurd hpg (by simp)
  · have hpg2 := (Option.some.inj hpg).symm
    subst hpg2
    simp only [hq, ceilDiv]
    rw [if_neg (by omega : ¬ (n : Int) = 0), if_pos hpos]
    refine ⟨_, rfl, ?_, ?_⟩
    · have h1 := Int.emod_add_ediv (((s.files.filter
        (listFilter rx o (q.trash.getD "false") (q.search.getD ""))).length : Int) + n - 1) n
      have h2 := Int.emod_nonneg (((s.files.filter
        (listFilter rx o (q.trash.getD "false") (q.search.getD ""))).length : Int) + n - 1)
        (by omega : (n : Int) ≠ 0)
      rw [mul_sub, mul_one]
      linarith
    · have h1 := Int.emod_add_ediv (((s.files.filter
        (listFilter rx o (q.trash.getD "false") (q.search.getD ""))).length : Int) + n - 1) n
      have h2 := Int.emod_lt_of_pos (((s.files.filter
        (listFilter rx o (q.trash.getD "false") (q.search.getD ""))).length : Int) + n - 1)
        hpos
      linarith

/-- C20, counterexample. The page size is the `limit` parameter of the request: with
`limit=50` the 21 active records of user 1 in `sampleMany` come back in one response of 21
entries; and with `limit=1` the three active records of user 1 in `sampleStore3` make
`totalPages = 3`, where the ceiling of 3 / 20 is 1. -/
theorem list_page_size_is_limit :
    (list noExt sampleMany 1 ⟨none, some 50, none, none⟩).response.status = 200
      ∧ (list noExt sampleMany 1 ⟨none, some 50, none, none⟩).response.entries.length = 21
      ∧ (list noExt sampleStore3 1 ⟨some 1, some 1, none, none⟩).response.pageInfo
          = some { currentPage := 1, totalPages := some 3, totalFiles := 3,
                   hasNextPage := true, hasPrevPage := false }
      ∧ (3 : Int) ≤ 20 * 1 := by
  decide

/-- C20, amended. The page size of a list request is its `limit` parameter, 20 when the
request has none: without `limit` the response has at most 20 entries and `totalPages` is
the ceiling of `totalFiles / 20`; with `limit = L ≥ 1` it has at most `L` entries and
`totalPages` is the ceiling of `totalFiles / L`. -/
theorem list_page_size (rx : String → String → Bool) (s : Store) (o : Nat)
    (page : Option Int) (search trash : Option String) (L : Nat) (hL : 1 ≤ L) :
    ((list rx s o ⟨page, none, search, trash⟩).response.entries.length ≤ 20
        ∧ ∀ pg, (list rx s o ⟨page, none, search, trash⟩).response.pageInfo = some pg →
            ∃ t : Int, pg.totalPages = some t
              ∧ 20 * (t - 1) < pg.totalFiles ∧ (pg.totalFiles : Int) ≤ 20 * t)
      ∧ ((list rx s o ⟨page, some L, search, trash⟩).response.entries.length ≤ L
        ∧ ∀ pg, (list rx s o ⟨page, some L, search, trash⟩).response.pageInfo = some pg →
            ∃ t : Int, pg.totalPages = some t
              ∧ (L : Int) * (t - 1) < pg.totalFiles ∧ (pg.totalFiles : Int) ≤ L * t) := by
  refine ⟨⟨?_, ?_⟩, ⟨?_, ?_⟩⟩
  · exact list_entries_length_le rx s o ⟨page, none, search, trash⟩ 20 (by decide) rfl
  · intro pg hpg
    exact list_totalPages_ceil rx s o ⟨page, none, search, trash⟩ 20 (by decide) rfl pg hpg
  · exact list_entries_length_le rx s o ⟨page, some L, search, trash⟩ L hL rfl
  · intro pg hpg
    exact list_totalPages_ceil rx s o ⟨page, some L, search, trash⟩ L hL rfl pg hpg

/-- C20, witness of the amended claim: `sampleMany` without `limit` gives 20 of the 21
records and two pages, and with `limit=50` gives at most 50. -/
theorem list_page_size_witness :
    (list noExt sampleMany 1 ⟨none, none, none, none⟩).response.entries.length = 20
      ∧ (list noExt sampleMany 1 ⟨none, none, none, none⟩).response.pageInfo
          = some { currentPage := 1, totalPages := some 2, totalFiles := 21,
                   hasNextPage := true, hasPrevPage := false }
      ∧ (list noExt sampleMany 1 ⟨none, some (50 : Nat), none, none⟩).response.entries.length
          ≤ 50 :=
  ⟨by decide, by decide,
   (list_page_size noExt sampleMany 1 none none none 50 (by decide)).2.1⟩

/-! ## Pagination flags -/

theorem list_entries_ne_nil_iff (rx : String → String → Bool) (s : Store) (o : Nat)
    (p L : Nat) (search trash : Option String) (hp : 1 ≤ p) (hL : 1 ≤ L) :
    (list rx s o ⟨some p, some L, search, trash⟩).response.entries ≠ []
      ↔ (p - 1) * L
          < (s.files.filter (listFilter rx o (trash.getD "false") (search.getD ""))).length := by
  rw [list_entries]
  simp only [Option.getD_some]
  rw [if_neg (skip_nonneg p L hp), skip_natAbs p L hp, applyLimit_pos L hL]
  rw [Ne, List.map_eq_nil_iff, List.take_eq_nil_iff, List.drop_eq_nil_iff,
    List.length_insertionSort]
  omega

/-- C21. For page `p ≥ 1`, limit `L ≥ 1` and any number of matching records, the list
response has `hasNextPage` true exactly when `currentPage < totalPages`, where `totalPages`
is the ceiling of `totalFiles / L`; that is exactly when `p * L < totalFiles`, exactly when
page `p + 1` of the same query has an entry, and exactly when the Next button of the client
can be pressed. -/
theorem pagination_flags_consistent (rx : String → String → Bool) (s : Store) (o : Nat)
    (p L : Nat) (search trash : Option String) (hp : 1 ≤ p) (hL : 1 ≤ L) :
    ∃ pg t,
      (list rx s o ⟨some p, some L, search, trash⟩).response.pageInfo = some pg
        ∧ pg.totalPages = some t
        ∧ ((L : Int) * (t - 1) < pg.totalFiles ∧ (pg.totalFiles : Int) ≤ L * t)
        ∧ (pg.hasNextPage = true ↔ pg.currentPage < t)
        ∧ (pg.hasNextPage = true ↔ p * L < pg.totalFiles)
        ∧ (pg.hasNextPage = true ↔
            (list rx s o ⟨some ((p + 1 : Nat) : Int), some L, search, trash⟩).response.entries
              ≠ [])
        ∧ nextButtonEnabled pg = pg.hasNextPage := by
  have hLpos : (0 : Int) < (L : Int) := by omega
  have hpi := list_pageInfo rx s o ⟨some p, some L, search, trash⟩
  simp only [Option.getD_some] at hpi
  rw [if_neg (skip_nonneg p L hp)] at hpi
  have hceil : ceilDiv (s.files.filter
      (listFilter rx o (trash.getD "false") (search.getD ""))).length (L : Int)
      = some ((((s.files.filter
          (listFilter rx o (trash.getD "false") (search.getD ""))).length : Int) + L - 1)
          / L) := by
    simp only [ceilDiv]
    rw [if_neg (by omega : ¬ (L : Int) = 0), if_pos hLpos]
  rw [hceil] at hpi
  have h1 := Int.emod_add_ediv (((s.files.filter
    (listFilter rx o (trash.getD "false") (search.getD ""))).length : Int) + L - 1) L
  have h2 := Int.emod_nonneg (((s.files.filter
    (listFilter rx o (trash.getD "false") (search.getD ""))).length : Int) + L - 1)
    (by omega : (L : Int) ≠ 0)
  have h3 := Int.emod_lt_of_pos (((s.files.filter
    (listFilter rx o (trash.getD "false") (search.getD ""))).length : Int) + L - 1) hLpos
  have hlow : (L : Int) * ((((s.files.filter
      (listFilter rx o (trash.getD "false") (search.getD ""))).length : Int) + L - 1) / L - 1)
      < ((s.files.filter
        (listFilter rx o (trash.getD "false") (search.getD ""))).length : Int) := by
    rw [mul_sub, mul_one]
    linarith
  have hhigh : ((s.files.filter
      (listFilter rx o (trash.getD "false") (search.getD ""))).length : Int)
      ≤ (L : Int) * ((((s.files.filter
        (listFilter rx o (trash.getD "false") (search.getD ""))).length : Int) + L - 1) / L) := by
    linarith
  have hnext : (p : Int) * L < ((s.files.filter
      (listFilter rx o (trash.getD "false") (search.getD ""))).length : Int)
      ↔ (p : Int) < (((s.files.filter
        (listFilter rx o (trash.getD "false") (search.getD ""))).length : Int) + L - 1) / L := by
    constructor
    · intro h
      have h4 : (L : Int) * p < L * ((((s.files.filter
          (listFilter rx o (trash.getD "false") (search.getD ""))).length : Int) + L - 1) / L) := by
        rw [mul_comm (L : Int) p]
        exact lt_of_lt_of_le h hhigh
      exact lt_of_mul_lt_mul_left h4 (le_of_lt hLpos)
    · intro h
      have h4 : (p : Int) ≤ (((s.files.filter
          (listFilter rx o (trash.getD "false") (search.getD ""))).length : Int) + L - 1) / L
          - 1 := by omega
      have h5 := mul_le_mul_of_nonneg_left h4 (le_of_lt hLpos)
      rw [mul_comm (p : Int) L]
      exact lt_of_le_of_lt h5 hlow
  refine ⟨_, _, hpi, rfl, ⟨hlow, hhigh⟩, ?_, ?_, ?_, ?_⟩
  · simp only [decide_eq_true_eq]
    exact hnext
  · simp only [decide_eq_true_eq]
    constructor
    · intro h; exact_mod_cast h
    · intro h; exact_mod_cast h
  · rw [list_entries_ne_nil_iff rx s o (p + 1) L search trash (by omega) hL]
    simp only [decide_eq_true_eq, Nat.add_sub_cancel]
    constructor
    · intro h; exact_mod_cast h
    · intro h; exact_mod_cast h
  · simp only [nextButtonEnabled]
    split
    · rename_i hle
      have hfalse : ¬ ((p : Int) * L < ((s.files.filter
          (listFilter rx o (trash.getD "false") (search.getD ""))).length : Int)) := by
        intro h
        have := hnext.mp h
        omega
      simp only [hfalse, decide_False]
    · rfl

/-- C21, witness on the three active records of user 1 in `sampleStore3` with limit 2:
page 1 has a next page (1 of 2 pages), page 2 has none. -/
theorem pagination_flags_consistent_witness :
    (list noExt sampleStore3 1 ⟨some 1, some 2, none, none⟩).response.pageInfo
        = some { currentPage := 1, totalPages := some 2, totalFiles := 3,
                 hasNextPage := true, hasPrevPage := false }
      ∧ (list noExt sampleStore3 1 ⟨some 2, some 2, none, none⟩).response.pageInfo
        = some { currentPage := 2, totalPages := some 2, totalFiles := 3,
                 hasNextPage := false, hasPrevPage := true }
      ∧ ∃ pg t,
          (list noExt sampleStore3 1
              ⟨some ((1 : Nat) : Int), some ((2 : Nat) : Int), none, none⟩).response.pageInfo
            = some pg
          ∧ pg.totalPages = some t ∧ (pg.hasNextPage = true ↔ pg.currentPage < t) :=
  ⟨by decide, by decide,
   match pagination_flags_consistent noExt sampleStore3 1 1 2 none none (by decide)
     (by decide) with
   | ⟨pg, t, h1, h2, _, h4, _⟩ => ⟨pg, t, h1, h2, h4⟩⟩

/-! ## Frame of the lifecycle transitions -/

theorem not_mem_of_head_id {f : FileRecord} {fs : List FileRecord}
    (hid : ((f :: fs).map (fun x => x._id)).Nodup) : ∀ x ∈ fs, x ≠ f := by
  intro x hx e
  rw [List.map_cons, List.nodup_cons] at hid
  exact hid.1 (List.mem_map.mpr ⟨x, hx, by rw [e]⟩)

theorem updateById_eq_map {l : List FileRecord} {r : FileRecord}
    (g : FileRecord → FileRecord) (hid : (l.map (fun f => f._id)).Nodup) (hr : r ∈ l) :
    updateById r._id g l = l.map (fun f => if f = r then g r else f) := by
  induction l with
  | nil => simp at hr
  | cons f fs ih =>
    have hid2 := hid
    rw [List.map_cons, List.nodup_cons] at hid2
    unfold updateById
    by_cases hf : f._id = r._id
    · have hfr : f = r := eq_of_mem_of_id hid (List.mem_cons_self _ _) hr hf
      rw [if_pos hf, List.map_cons, if_pos hfr, hfr]
      congr 1
      have hnot : ∀ x ∈ fs, x ≠ r := by
        rw [← hfr]
        exact not_mem_of_head_id hid
      symm
      calc fs.map (fun x => if x = r then g r else x)
          = fs.map (fun x => x) := by
            apply List.map_congr_left
            intro x hx
            rw [if_neg (hnot x hx)]
        _ = fs := List.map_id _
    · have hfr : f ≠ r := fun e => hf (by rw [e])
      have hrfs : r ∈ fs := by
        rcases List.mem_cons.mp hr with h1 | h1
        · exact absurd h1.symm hfr
        · exact h1
      rw [if_neg hf, List.map_cons, if_neg hfr, ih hid2.2 hrfs]

theorem removeById_eq_filter {l : List FileRecord} {r : FileRecord}
    (hid : (l.map (fun f => f._id)).Nodup) (hr : r ∈ l) :
    removeById r._id l = l.filter (fun f => f != r) := by
  induction l with
  | nil => simp at hr
  | cons f fs ih =>
    have hid2 := hid
    rw [List.map_cons, List.nodup_cons] at hid2
    unfold removeById
    by_cases hf : f._id = r._id
    · have hfr : f = r := eq_of_mem_of_id hid (List.mem_cons_self _ _) hr hf
      have hnot : ∀ x ∈ fs, x ≠ r := by
        rw [← hfr]
        exact not_mem_of_head_id hid
      rw [if_pos hf, List.filter_cons_of_neg (by simp [hfr])]
      symm
      apply List.filter_eq_self.mpr
      intro x hx
      simpa using hnot x hx
    · have hfr : f ≠ r := fun e => hf (by rw [e])
      have hrfs : r ∈ fs := by
        rcases List.mem_cons.mp hr with h1 | h1
        · exact absurd h1.symm hfr
        · exact h1
      rw [if_neg hf, List.filter_cons_of_pos (by simpa using hfr), ih hid2.2 hrfs]

/-- C22. In a collection with distinct `_id`s, whatever store calls fail: move to trash of
`(k, o)` leaves the uploads directory as it is and either leaves the collection as it is or
replaces one record with filename `k` and owner `o` by the same record with
`deleted = true` and `deletedAt` the current time, every other record staying in place
unchanged; restore does the same with `deleted = false` and `deletedAt = null`; permanent
delete either leaves the collection as it is or removes one record with filename `k` and
owner `o` and nothing else, and either leaves the uploads directory as it is or removes
what is stored under the path of `k` and nothing else. -/
theorem lifecycle_frame (env : Env) (s : Store) (o : Nat) (k : String)
    (hid : (s.files.map (fun f => f._id)).Nodup) :
    ((moveToTrash env s o k).store.disk = s.disk
        ∧ ((moveToTrash env s o k).store.files = s.files
          ∨ ∃ r ∈ s.files, r.filename = k ∧ r.uploadedBy = o
              ∧ (moveToTrash env s o k).store.files
                  = s.files.map (fun f =>
                      if f = r then { r with deleted := true, deletedAt := some env.now }
                      else f)))
      ∧ ((restore env s o k).store.disk = s.disk
        ∧ ((restore env s o k).store.files = s.files
          ∨ ∃ r ∈ s.files, r.filename = k ∧ r.uploadedBy = o
              ∧ (restore env s o k).store.files
                  = s.files.map (fun f =>
                      if f = r then { r with deleted := false, deletedAt := none } else f)))
      ∧ (((permanentDelete env s o k).store.files = s.files
          ∨ ∃ r ∈ s.files, r.filename = k ∧ r.uploadedBy = o
              ∧ (permanentDelete env s o k).store.files = s.files.filter (fun f => f != r))
        ∧ ((permanentDelete env s o k).store.disk = s.disk
          ∨ (permanentDelete env s o k).store.disk
              = s.disk.filter (fun b => b.1 != pathJoin uploadsDir k))) := by
  refine ⟨?_, ?_, ?_⟩
  · cases h : findOne (fun f => f.filename == k && f.uploadedBy == o && f.deleted != true)
        s.files with
    | none => rw [moveToTrash_notFound h]; exact ⟨rfl, Or.inl rfl⟩
    | some r =>
      obtain ⟨hr, hq⟩ := findOne_some h
      simp only [Bool.and_eq_true, beq_iff_eq] at hq
      cases hs : env.saveOk with
      | false => rw [moveToTrash_fault h hs]; exact ⟨rfl, Or.inl rfl⟩
      | true =>
        rw [moveToTrash_saved h hs]
        exact ⟨rfl, Or.inr ⟨r, hr, hq.1.1, hq.1.2,
          updateById_eq_map (markDeleted env.now) hid hr⟩⟩
  · cases h : findOne (fun f => f.filename == k && f.uploadedBy == o && f.deleted == true)
        s.files with
    | none => rw [restore_notFound h]; exact ⟨rfl, Or.inl rfl⟩
    | some r =>
      obtain ⟨hr, hq⟩ := findOne_some h
      simp only [Bool.and_eq_true, beq_iff_eq] at hq
      cases hs : env.saveOk with
      | false => rw [restore_fault h hs]; exact ⟨rfl, Or.inl rfl⟩
      | true =>
        rw [restore_saved h hs]
        exact ⟨rfl, Or.inr ⟨r, hr, hq.1.1, hq.1.2, updateById_eq_map unmarkDeleted hid hr⟩⟩
  · cases h : findOne (fun f => f.filename == k && f.uploadedBy == o) s.files with
    | none => rw [permanentDelete_notFound h]; exact ⟨Or.inl rfl, Or.inl rfl⟩
    | some r =>
      obtain ⟨hr, hq⟩ := findOne_some h
      simp only [Bool.and_eq_true, beq_iff_eq] at hq
      have hdisk : (unlink env.unlinkOk s.disk (pathJoin uploadsDir r.filename)).getD s.disk
            = s.disk
          ∨ (unlink env.unlinkOk s.disk (pathJoin uploadsDir r.filename)).getD s.disk
            = s.disk.filter (fun b => b.1 != pathJoin uploadsDir k) := by
        cases hu : unlink env.unlinkOk s.disk (pathJoin uploadsDir r.filename) with
        | none => exact Or.inl rfl
        | some d =>
          obtain ⟨-, -, hd⟩ := unlink_some hu
          rw [hq.1] at hd
          exact Or.inr hd
      cases hd : env.deleteOk with
      | false =>
        rw [permanentDelete_fault h hd]
        exact ⟨Or.inl rfl, hdisk⟩
      | true =>
        rw [permanentDelete_deleted h hd]
        exact ⟨Or.inr ⟨r, hr, hq.1, hq.2, removeById_eq_filter hid hr⟩, hdisk⟩

/-- C22, witness on `sampleStore3`: trashing `abc.txt` of user 1 changes that record only,
restoring the trashed record changes that record only, and the permanent delete of
`Report.PDF` removes that record and its blob only. -/
theorem lifecycle_frame_witness :
    (moveToTrash sampleEnv sampleStore3 1 "u3-abc.txt").store
        = { files := [sampleFile, samplePdf,
                      { sampleAbc with deleted := true, deletedAt := some 20 },
                      sampleTrashed, sampleOther],
            disk := sampleStore3.disk }
      ∧ (restore sampleEnv sampleStore3 1 "u5-t.txt").store
        = { files := [sampleFile, samplePdf, sampleAbc,
                      { sampleTrashed with deleted := false, deletedAt := none },
                      sampleOther],
            disk := sampleStore3.disk }
      ∧ (permanentDelete sampleEnv sampleStore3 1 "u2-Report.PDF").store
        = { files := [sampleFile, sampleAbc, sampleTrashed, sampleOther],
            disk := [("uploads/u1-a.txt", [104, 105]), ("uploads/u5-t.txt", [1])] }
      ∧ (moveToTrash sampleEnv sampleStore3 1 "u3-abc.txt").store.disk = sampleStore3.disk :=
  ⟨by decide, by decide, by decide,
   (lifecycle_frame sampleEnv sampleStore3 1 "u3-abc.txt" (by decide)).1.1⟩

end DriveClone
